import Mathlib

/-!
Verification development for the FlashT5LENS data-preparation pipeline
(`src/data/data_collator_pt.py` and `src/data/pt_data_process.py`).

The Python code is shallowly embedded: numpy arrays become `List`s, machine
integers become `Int`/`Nat`, float densities become `ℚ` with numpy's
round-half-to-even modelled exactly, and every place where the Python code can
raise (negative `np.pad` widths, `np.stack` shape mismatches, failing
`assert`s) is modelled by an `Option` returning `none`.  Randomness
(`np.random.shuffle`, `np.random.choice`, `np.random.randint`) is modelled by
passing the drawn values as explicit arguments; theorems carry hypotheses
stating exactly the shapes the Python random draws can produce.
-/

/-- Token id of the padding token (`tokenizer.pad_token_id`, pinned to 0 in the
source comments). -/
def PAD_ID : Int := 0

/-- Token id of the end-of-sequence marker (`tokenizer.eos_token_id`, 1). -/
def EOS_ID : Int := 1

/-- Token id of the `<head>` structural token (3). -/
def HEAD_ID : Int := 3

/-- Token id of the `<pkt>` structural token (4). -/
def PKT_ID : Int := 4

/-- Cumulative sums of a list of naturals, i.e. `np.cumsum`:
`cumsum [a, b, c] = [a, a+b, a+b+c]`. -/
def cumsum : List Nat → List Nat
  | [] => []
  | x :: xs => x :: (cumsum xs).map (x + ·)

/-- Cumulative sums of a list of integers (`np.cumsum` on an int array). -/
def cumsumZ : List Int → List Int
  | [] => []
  | x :: xs => x :: (cumsumZ xs).map (x + ·)

/-- Round-half-to-even on rationals: the exact semantics of numpy's
`np.round` on a scalar. -/
def roundHalfEven (q : ℚ) : Int :=
  if 2 * (q - ⌊q⌋) = 1 then (if Even ⌊q⌋ then ⌊q⌋ else ⌊q⌋ + 1) else ⌊q + 1/2⌋

/-- Run lengths of the segment-id array `np.cumsum(first_in_segment)` inside
`_random_segmentation`: `acc` is the length of the run currently being read;
every `true` (a segment start) closes the current run and opens a new one.
This is exactly what `np.unique(segment_id, return_counts=True)` returns for a
non-decreasing `segment_id`. -/
def segLensGo (acc : Nat) : List Bool → List Nat
  | [] => [acc]
  | b :: xs => if b then acc :: segLensGo 1 xs else segLensGo (acc + 1) xs

/-- `DataCollatorForPretrain.random_spans_noise_mask._random_segmentation`.
In the Python source, `mask_indices` is `np.arange(num_items-1) <
(num_segments-1)` shuffled in place; here the shuffled boolean list is the
argument `shuffled` (so `shuffled.length = num_items - 1` and its `true`-count
is `min (num_segments-1) (num_items-1)` for every real execution).  The
`np.pad(mask_indices, [[1, 0]])` that prepends a `0` is the initial
accumulator `1` of `segLensGo`. -/
def random_segmentation (shuffled : List Bool) : List Nat :=
  segLensGo 1 shuffled

/-- Interleaving of `np.reshape(np.stack([a, b], axis=1), ...)`:
`[a0, b0, a1, b1, ...]` for equally long `a` and `b`. -/
def interleave : List Nat → List Nat → List Nat
  | a :: as, b :: bs => a :: b :: interleave as bs
  | _, _ => []

/-- Number of span starts at positions `≤ p`:
`np.cumsum(span_start_indicator)` evaluated at position `p`, where
`span_start_indicator[s] = True` for every `s ∈ starts` (numpy fancy
assignment collapses duplicate indices, hence the `contains` test). -/
def spanNum (starts : List Nat) (p : Nat) : Nat :=
  ((List.range (p + 1)).filter (fun q => starts.contains q)).length

/-- `DataCollatorForPretrain.random_spans_noise_mask`.
`noise_density` and `mean_noise_span_length` are the collator fields; `length`
is the argument; `shuf1`/`shuf2` are the two in-place shuffles drawn inside
the two `_random_segmentation` calls (noise spans first, then non-noise
spans).  Returns `none` where the Python code raises: `np.stack` requires the
two segmentations to have the same length and `np.reshape` requires that
common length to be `num_noise_spans`. -/
def random_spans_noise_mask (noise_density : ℚ) (mean_noise_span_length : Nat)
    (length : Nat) (shuf1 shuf2 : List Bool) : Option (List Bool) :=
  let num_noise_tokens : Int := roundHalfEven (length * noise_density)
  let num_noise_tokens : Int := min (max num_noise_tokens 1) ((length : Int) - 1)
  let num_noise_spans : Int :=
    max (roundHalfEven ((num_noise_tokens : ℚ) / (mean_noise_span_length : ℚ))) 1
  let noise_span_lengths := random_segmentation shuf1
  let nonnoise_span_lengths := random_segmentation shuf2
  if noise_span_lengths.length = nonnoise_span_lengths.length ∧
      (noise_span_lengths.length : Int) = num_noise_spans then
    let interleaved_span_lengths := interleave nonnoise_span_lengths noise_span_lengths
    let span_starts := (cumsum interleaved_span_lengths).dropLast
    some ((List.range length).map (fun p => spanNum span_starts p % 2 == 1))
  else
    none

/-! ### Spec-side view of the span mask: alternating runs -/

/-- Alternating-run mask: `altMask b [l0, l1, ...]` is `l0` copies of `b`,
then `l1` copies of `!b`, and so on.  This is the intended reading of the
interleaved clean/noise span lengths ("Spans alternate between non-noise and
noise, beginning with non-noise"). -/
def altMask : Bool → List Nat → List Bool
  | _, [] => []
  | b, l :: rest => List.replicate l b ++ altMask (!b) rest

/-- Number of maximal runs of `true` in a boolean list, reading left to right;
`prev` is the value preceding the current position (`false` before the
start). -/
def ctr (prev : Bool) : List Bool → Nat
  | [] => 0
  | b :: xs => (if b && !prev then 1 else 0) + ctr b xs

/-- Number of maximal `True`-runs of a mask (spec-side notion used by the
"number of noise spans" property). -/
def countTrueRuns (l : List Bool) : Nat := ctr false l

theorem segLensGo_sum (l : List Bool) : ∀ acc, (segLensGo acc l).sum = acc + l.length := by
  induction l with
  | nil => intro acc; simp [segLensGo]
  | cons b xs ih =>
    intro acc
    by_cases hb : b = true <;> simp [segLensGo, hb, ih] <;> omega

theorem segLensGo_length (l : List Bool) : ∀ acc, (segLensGo acc l).length = l.count true + 1 := by
  induction l with
  | nil => intro acc; simp [segLensGo]
  | cons b xs ih =>
    intro acc
    by_cases hb : b = true <;> simp [segLensGo, hb, ih, List.count_cons]

theorem segLensGo_pos (l : List Bool) : ∀ acc, 0 < acc →
    ∀ x ∈ segLensGo acc l, 0 < x := by
  induction l with
  | nil => intro acc hacc x hx; simp [segLensGo] at hx; omega
  | cons b xs ih =>
    intro acc hacc x hx
    by_cases hb : b = true <;> simp [segLensGo, hb] at hx
    · rcases hx with h | h
      · omega
      · exact ih 1 (by omega) x h
    · exact ih (acc + 1) (by omega) x hx

theorem interleave_sum : ∀ (a b : List Nat), a.length = b.length →
    (interleave a b).sum = a.sum + b.sum := by
  intro a
  induction a with
  | nil => intro b hb; cases b <;> simp_all [interleave]
  | cons x xs ih =>
    intro b hb
    cases b with
    | nil => simp at hb
    | cons y ys =>
      simp [interleave, ih ys (by simpa using hb)]
      ring

theorem interleave_mem : ∀ (a b : List Nat), ∀ x ∈ interleave a b, x ∈ a ∨ x ∈ b := by
  intro a
  induction a with
  | nil => intro b x hx; simp [interleave] at hx
  | cons c cs ih =>
    intro b x hx
    cases b with
    | nil => simp [interleave] at hx
    | cons d ds =>
      simp [interleave] at hx
      rcases hx with h | h | h
      · exact Or.inl (by simp [h])
      · exact Or.inr (by simp [h])
      · rcases ih ds x h with h2 | h2
        · exact Or.inl (by simp [h2])
        · exact Or.inr (by simp [h2])

theorem cumsum_pos (L : List Nat) (hL : ∀ x ∈ L, 0 < x) :
    ∀ y ∈ cumsum L, 0 < y := by
  induction L with
  | nil => simp [cumsum]
  | cons x xs ih =>
    intro y hy
    simp [cumsum] at hy
    rcases hy with h | ⟨a, _, h⟩
    · exact h ▸ hL x (by simp)
    · have := hL x (by simp)
      omega

theorem cumsum_ne_nil (L : List Nat) (h : L ≠ []) : cumsum L ≠ [] := by
  cases L <;> simp_all [cumsum]

theorem spanNum_eq_zero (starts : List Nat) (p : Nat)
    (h : ∀ s ∈ starts, p < s) : spanNum starts p = 0 := by
  unfold spanNum
  rw [List.length_eq_zero]
  rw [List.filter_eq_nil_iff]
  intro q hq
  simp only [List.mem_range] at hq
  simp only [List.contains_eq_any_beq, List.any_eq_true, beq_iff_eq, not_exists]
  push_neg
  intro s hs
  have := h s hs
  omega

theorem spanNum_succ (starts : List Nat) (p : Nat) :
    spanNum starts (p + 1) =
      spanNum starts p + (if starts.contains (p + 1) then 1 else 0) := by
  unfold spanNum
  rw [List.range_succ, List.filter_append, List.length_append]
  by_cases h : p + 1 ∈ starts <;> simp [h, List.filter]

theorem spanNum_zero_mem (starts : List Nat) (h : 0 ∈ starts) : spanNum starts 0 = 1 := by
  have hr : List.range (0 + 1) = [0] := rfl
  unfold spanNum
  rw [hr]
  simp [h, List.filter]

theorem spanNum_zero_not_mem (starts : List Nat) (h : 0 ∉ starts) : spanNum starts 0 = 0 := by
  have hr : List.range (0 + 1) = [0] := rfl
  unfold spanNum
  rw [hr]
  simp [h, List.filter]

theorem spanNum_shift (l : Nat) (s' : List Nat) (hpos : ∀ x ∈ s', 0 < x) :
    ∀ p, spanNum (l :: s'.map (l + ·)) (l + p) = 1 + spanNum s' p := by
  intro p
  induction p with
  | zero =>
    have h0 : spanNum s' 0 = 0 := by
      apply spanNum_zero_not_mem
      intro h
      exact absurd (hpos 0 h) (by omega)
    rw [h0, Nat.add_zero]
    unfold spanNum
    rw [List.range_add, List.filter_append, List.length_append]
    have h1 : (List.range l).filter (fun q => (l :: s'.map (l + ·)).contains q) = [] := by
      rw [List.filter_eq_nil_iff]
      intro q hq
      simp only [List.mem_range] at hq
      simp only [List.contains_eq_any_beq, List.any_eq_true, beq_iff_eq, List.mem_cons,
        List.mem_map, not_exists]
      rintro s ⟨hs | ⟨x, hx, rfl⟩, rfl⟩ <;> omega
    have h2 : ((List.range 1).map (l + ·)).filter
        (fun q => (l :: s'.map (l + ·)).contains q) = [l] := by
      have hr1 : (List.range 1).map (l + ·) = [l] := by simp [List.range_succ]
      rw [hr1]
      simp [List.filter]
    simp only [h1, h2]
    simp
  | succ p ih =>
    have e1 : l + (p + 1) = (l + p) + 1 := by omega
    rw [e1, spanNum_succ, spanNum_succ, ih]
    have e2 : ((l :: s'.map (l + ·)).contains (l + p + 1) : Bool)
        = (s'.contains (p + 1) : Bool) := by
      by_cases hmem : p + 1 ∈ s'
      · have hin : (l + p + 1) ∈ l :: s'.map (l + ·) :=
          List.mem_cons_of_mem l (List.mem_map.mpr ⟨p + 1, hmem, by omega⟩)
        simp [hin, hmem]
      · have hin : (l + p + 1) ∉ l :: s'.map (l + ·) := by
          simp only [List.mem_cons, List.mem_map]
          rintro (h | ⟨x, hx, hxx⟩)
          · omega
          · have hxp : x = p + 1 := by omega
            exact hmem (hxp ▸ hx)
        simp [hin, hmem]
    rw [e2]
    omega

theorem mod_two_succ_bne (k : Nat) : (((k + 1) % 2 == 1) : Bool) = !(k % 2 == 1) := by
  rcases Nat.mod_two_eq_zero_or_one k with h | h <;> simp [Nat.add_mod, h]

theorem spanMask_eq_altMask : ∀ (L : List Nat), (∀ x ∈ L, 0 < x) → ∀ (k : Nat),
    (List.range L.sum).map (fun p => (k + spanNum (cumsum L).dropLast p) % 2 == 1)
      = altMask (k % 2 == 1) L := by
  intro L
  induction L with
  | nil => intro _ k; simp [altMask]
  | cons l rest ih =>
    intro hpos k
    have hsum : (l :: rest).sum = l + rest.sum := by simp
    rw [hsum, List.range_add, List.map_append, List.map_map]
    have haltm : altMask (k % 2 == 1) (l :: rest)
        = List.replicate l (k % 2 == 1) ++ altMask (!(k % 2 == 1)) rest := rfl
    rw [haltm]
    have hstarts_ge : ∀ s ∈ (cumsum (l :: rest)).dropLast, l ≤ s := by
      intro s hs
      have hs2 : s ∈ cumsum (l :: rest) := List.dropLast_subset _ hs
      simp only [cumsum, List.mem_cons, List.mem_map] at hs2
      rcases hs2 with rfl | ⟨a, _, rfl⟩ <;> omega
    congr 1
    · have hcongr : ∀ p ∈ List.range l,
          ((k + spanNum (cumsum (l :: rest)).dropLast p) % 2 == 1)
            = ((fun _ => ((k % 2 == 1) : Bool)) p) := by
        intro p hp
        simp only [List.mem_range] at hp
        rw [spanNum_eq_zero _ _ (fun s hs => lt_of_lt_of_le hp (hstarts_ge s hs))]
        simp
      rw [List.map_congr_left hcongr, List.map_const', List.length_range]
    · rcases List.eq_nil_or_concat rest with rfl | ⟨_, _, hne⟩
      · simp [altMask]
      have hrne : rest ≠ [] := by
        rw [hne]; exact List.concat_ne_nil _ _
      have hcne : cumsum rest ≠ [] := cumsum_ne_nil rest hrne
      have hstarts : (cumsum (l :: rest)).dropLast
          = l :: ((cumsum rest).dropLast).map (l + ·) := by
        show ((l :: (cumsum rest).map (l + ·)) : List Nat).dropLast = _
        rw [List.dropLast_cons_of_ne_nil (by simpa using hcne), List.map_dropLast]
      have hpos' : ∀ x ∈ (cumsum rest).dropLast, 0 < x := fun x hx =>
        cumsum_pos rest (fun y hy => hpos y (List.mem_cons_of_mem l hy)) x
          (List.dropLast_subset _ hx)
      have hcongr : ∀ p ∈ List.range rest.sum,
          ((k + spanNum (cumsum (l :: rest)).dropLast (l + p)) % 2 == 1)
            = (((k + 1) + spanNum (cumsum rest).dropLast p) % 2 == 1) := by
        intro p _
        rw [hstarts, spanNum_shift l _ hpos' p]
        congr 1
        omega
      calc (List.range rest.sum).map
            (fun p => ((k + spanNum (cumsum (l :: rest)).dropLast (l + p)) % 2 == 1))
          = (List.range rest.sum).map
            (fun p => (((k + 1) + spanNum (cumsum rest).dropLast p) % 2 == 1)) :=
            List.map_congr_left hcongr
        _ = altMask ((k + 1) % 2 == 1) rest :=
            ih (fun y hy => hpos y (List.mem_cons_of_mem l hy)) (k + 1)
        _ = altMask (!(k % 2 == 1)) rest := by rw [mod_two_succ_bne]

theorem count_altMask : ∀ (C N : List Nat), C.length = N.length →
    (altMask false (interleave C N)).count true = N.sum := by
  intro C
  induction C with
  | nil => intro N h; cases N <;> simp_all [interleave, altMask]
  | cons c cs ih =>
    intro N h
    cases N with
    | nil => simp at h
    | cons n ns =>
      show (altMask false (c :: n :: interleave cs ns)).count true = (n :: ns).sum
      have : altMask false (c :: n :: interleave cs ns)
          = List.replicate c false ++ (List.replicate n true ++
              altMask false (interleave cs ns)) := by
        simp [altMask]
      rw [this]
      simp [List.count_append, List.count_replicate, ih ns (by simpa using h)]

theorem ctr_replicate_false_append (X : List Bool) :
    ∀ (m : Nat), 1 ≤ m → ∀ prev, ctr prev (List.replicate m false ++ X) = ctr false X := by
  intro m
  induction m with
  | zero => omega
  | succ k ih =>
    intro _ prev
    rcases Nat.eq_zero_or_pos k with rfl | hk
    · simp [ctr]
    · show ctr prev (false :: (List.replicate k false ++ X)) = ctr false X
      simp only [ctr]
      rw [ih hk false]
      simp

theorem ctr_true_run (X : List Bool) :
    ∀ (k : Nat), ctr true (List.replicate k true ++ X) = ctr true X := by
  intro k
  induction k with
  | zero => simp
  | succ k ih =>
    show ctr true (true :: (List.replicate k true ++ X)) = ctr true X
    simp only [ctr]
    rw [ih]
    simp

theorem ctr_replicate_true_append (X : List Bool) (n : Nat) (hn : 1 ≤ n) :
    ctr false (List.replicate n true ++ X) = 1 + ctr true X := by
  obtain ⟨k, rfl⟩ : ∃ k, n = k + 1 := ⟨n - 1, by omega⟩
  show ctr false (true :: (List.replicate k true ++ X)) = 1 + ctr true X
  simp only [ctr]
  rw [ctr_true_run]
  simp

theorem ctr_altMask : ∀ (C N : List Nat), C.length = N.length →
    (∀ x ∈ C, 0 < x) → (∀ x ∈ N, 0 < x) →
    ∀ prev, ctr prev (altMask false (interleave C N)) = N.length := by
  intro C
  induction C with
  | nil => intro N h _ _ prev; cases N <;> simp_all [interleave, altMask, ctr]
  | cons c cs ih =>
    intro N h hC hN prev
    cases N with
    | nil => simp at h
    | cons n ns =>
      have hmask : altMask false (interleave (c :: cs) (n :: ns))
          = List.replicate c false ++ (List.replicate n true ++
              altMask false (interleave cs ns)) := by
        simp [interleave, altMask]
      rw [hmask]
      rw [ctr_replicate_false_append _ c (hC c (by simp)) prev]
      rw [ctr_replicate_true_append _ n (hN n (by simp))]
      cases cs with
      | nil =>
        have : ns = [] := by simpa using h.symm
        subst this
        simp [interleave, altMask, ctr]
      | cons c2 cs2 =>
        cases ns with
        | nil => simp at h
        | cons n2 ns2 =>
          have step : ctr true (altMask false (interleave (c2 :: cs2) (n2 :: ns2)))
              = (n2 :: ns2).length := by
            rw [← ih (n2 :: ns2) (by simpa using h)
              (fun x hx => hC x (List.mem_cons_of_mem c hx))
              (fun x hx => hN x (List.mem_cons_of_mem n hx)) true]
          rw [step]
          simp only [List.length_cons]
          omega

theorem altMask_head (b : Bool) (l : Nat) (rest : List Nat) (hl : 0 < l) :
    (altMask b (l :: rest)).head? = some b := by
  show (List.replicate l b ++ altMask (!b) rest).head? = some b
  obtain ⟨k, rfl⟩ : ∃ k, l = k + 1 := ⟨l - 1, by omega⟩
  rfl

theorem getLast_replicate_true (n : Nat) (hn : 0 < n) :
    (List.replicate n true).getLast? = some true := by
  obtain ⟨k, rfl⟩ : ∃ k, n = k + 1 := ⟨n - 1, by omega⟩
  rw [List.replicate_succ']
  simp

theorem altMask_getLast : ∀ (C N : List Nat), C.length = N.length → C ≠ [] →
    (∀ x ∈ N, 0 < x) → (altMask false (interleave C N)).getLast? = some true := by
  intro C
  induction C with
  | nil => intro N h hne _; exact absurd rfl hne
  | cons c cs ih =>
    intro N h _ hN
    cases N with
    | nil => simp at h
    | cons n ns =>
      have hmask : altMask false (interleave (c :: cs) (n :: ns))
          = List.replicate c false ++ (List.replicate n true ++
              altMask false (interleave cs ns)) := by
        simp [interleave, altMask]
      rw [hmask]
      cases cs with
      | nil =>
        have h0 : ns = [] := by simpa using h.symm
        subst h0
        have hn : 0 < n := hN n (by simp)
        have hmask2 : (List.replicate n true ++
            altMask false (interleave ([] : List Nat) ([] : List Nat)))
              = List.replicate n true := by
          simp [interleave, altMask]
        rw [hmask2]
        rw [List.getLast?_append_of_ne_nil _ (by
          intro hcon
          simp at hcon
          omega)]
        exact getLast_replicate_true n hn
      | cons c2 cs2 =>
        cases ns with
        | nil => simp at h
        | cons n2 ns2 =>
          have htail := ih (n2 :: ns2) (by simpa using h) (by simp)
            (fun x hx => hN x (List.mem_cons_of_mem n hx))
          have htailne : altMask false (interleave (c2 :: cs2) (n2 :: ns2)) ≠ [] := by
            intro hcon
            rw [hcon] at htail
            simp at htail
          rw [List.getLast?_append_of_ne_nil _ (by simp [htailne])]
          rw [List.getLast?_append_of_ne_nil _ htailne]
          exact htail

theorem altMask_length : ∀ (b : Bool) (L : List Nat), (altMask b L).length = L.sum := by
  intro b L
  induction L generalizing b with
  | nil => simp [altMask]
  | cons l rest ih => simp [altMask, ih]

theorem segLensGo_ne_nil (l : List Bool) (acc : Nat) : segLensGo acc l ≠ [] := by
  cases l with
  | nil => simp [segLensGo]
  | cons b xs =>
    by_cases hb : b = true <;> simp [segLensGo, hb]
    exact segLensGo_ne_nil xs (acc + 1)

/-- Success characterization of `random_spans_noise_mask`: when the two
shuffles have the shapes `np.random.shuffle` actually produces AND the number
of noise spans fits into the number of non-noise tokens, the returned mask is
the alternating clean/noise run mask. -/
theorem random_spans_noise_mask_success
    (q : ℚ) (m n : Nat) (shuf1 shuf2 : List Bool) (nnt spans : Int)
    (hnnt : nnt = min (max (roundHalfEven ((n : ℚ) * q)) 1) ((n : Int) - 1))
    (hspans : spans = max (roundHalfEven ((nnt : ℚ) / (m : ℚ))) 1)
    (h1l : ((shuf1.length : Nat) : Int) = nnt - 1)
    (h1c : ((shuf1.count true : Nat) : Int) = spans - 1)
    (h2l : ((shuf2.length : Nat) : Int) = (n : Int) - nnt - 1)
    (h2c : ((shuf2.count true : Nat) : Int) = spans - 1) :
    random_spans_noise_mask q m n shuf1 shuf2
      = some (altMask false
          (interleave (random_segmentation shuf2) (random_segmentation shuf1))) ∧
    (((random_segmentation shuf1).sum : Int) = nnt) ∧
    (((random_segmentation shuf2).sum : Int) = (n : Int) - nnt) ∧
    (((random_segmentation shuf1).length : Int) = spans) ∧
    (((random_segmentation shuf2).length : Int) = spans) := by
  have hlen1 : ((random_segmentation shuf1).length : Int) = spans := by
    unfold random_segmentation
    rw [segLensGo_length]
    push_cast
    omega
  have hlen2 : ((random_segmentation shuf2).length : Int) = spans := by
    unfold random_segmentation
    rw [segLensGo_length]
    push_cast
    omega
  have hsum1 : ((random_segmentation shuf1).sum : Int) = nnt := by
    unfold random_segmentation
    rw [segLensGo_sum]
    push_cast
    omega
  have hsum2 : ((random_segmentation shuf2).sum : Int) = (n : Int) - nnt := by
    unfold random_segmentation
    rw [segLensGo_sum]
    push_cast
    omega
  refine ⟨?_, hsum1, hsum2, hlen1, hlen2⟩
  have hguard : (random_segmentation shuf1).length = (random_segmentation shuf2).length ∧
      (((random_segmentation shuf1).length : Nat) : Int)
        = max (roundHalfEven (((min (max (roundHalfEven ((n : ℚ) * q)) 1) ((n : Int) - 1) : Int) : ℚ)
            / (m : ℚ))) 1 := by
    constructor
    · omega
    · rw [← hnnt, ← hspans]
      exact hlen1
  have hLsum : (interleave (random_segmentation shuf2) (random_segmentation shuf1)).sum = n := by
    have h := interleave_sum (random_segmentation shuf2) (random_segmentation shuf1) (by omega)
    omega
  have hLpos : ∀ x ∈ interleave (random_segmentation shuf2) (random_segmentation shuf1), 0 < x := by
    intro x hx
    rcases interleave_mem _ _ x hx with h | h
    · exact segLensGo_pos shuf2 1 (by omega) x h
    · exact segLensGo_pos shuf1 1 (by omega) x h
  unfold random_spans_noise_mask
  rw [if_pos hguard]
  show some ((List.range n).map (fun p =>
      spanNum (cumsum (interleave (random_segmentation shuf2)
        (random_segmentation shuf1))).dropLast p % 2 == 1))
    = some (altMask false (interleave (random_segmentation shuf2) (random_segmentation shuf1)))
  congr 1
  have hfin := spanMask_eq_altMask
    (interleave (random_segmentation shuf2) (random_segmentation shuf1)) hLpos 0
  rw [hLsum] at hfin
  have e0 : ((0 % 2 == 1) : Bool) = false := rfl
  rw [e0] at hfin
  rw [← hfin]
  apply List.map_congr_left
  intro p _
  simp

/-- C3 counterexample: at `length = 10`, `noise_density = 9/10 ∈ (0,1)`,
`mean_noise_span_length = 1 ≥ 1` — inside the domain the claim quantifies
over — the clamped noise count is `9` and the span count is `9`, so the two
`_random_segmentation` calls (whose shuffled index arrays necessarily have
lengths `8` and `0` with `8` resp. `0` set bits) return lists of different
lengths and `np.stack` raises: the function does NOT always return a mask. -/
theorem C3_counterexample :
    (2 ≤ 10) ∧ (0 < (9/10 : ℚ)) ∧ ((9/10 : ℚ) < 1) ∧ (1 ≤ 1) ∧
    min (max (roundHalfEven ((10 : ℚ) * (9/10 : ℚ))) 1) ((10 : Int) - 1) = 9 ∧
    max (roundHalfEven ((9 : ℚ) / (1 : ℚ))) 1 = 9 ∧
    (List.replicate 8 true).length = 9 - 1 ∧
    (List.replicate 8 true).count true = min (9 - 1) (9 - 1) ∧
    ([] : List Bool).length = (10 - 9) - 1 ∧
    ([] : List Bool).count true = min (9 - 1) ((10 - 9) - 1) ∧
    random_spans_noise_mask (9/10) 1 10 (List.replicate 8 true) [] = none := by
  refine ⟨by norm_num, by norm_num, by norm_num, le_refl 1,
    by norm_num [roundHalfEven], by norm_num [roundHalfEven],
    by decide, by decide, by decide, by decide, ?_⟩
  unfold random_spans_noise_mask
  rw [if_neg]
  rintro ⟨h1, -⟩
  have e1 : (random_segmentation (List.replicate 8 true)).length = 9 := by decide
  have e2 : (random_segmentation ([] : List Bool)).length = 1 := by decide
  omega

/-- C3 (amended): for `length ≥ 2`, `noise_density ∈ (0,1)` and
`mean_noise_span_length ≥ 1`, PROVIDED the derived span count
`max(1, round(noise_count / mean_span))` does not exceed
`length - noise_count`, `random_spans_noise_mask` returns a mask of exactly
`length` entries whose `True`-count is `round(length·density)` clamped to
`[1, length-1]` and whose number of maximal `True`-runs is the span count
(without that proviso the function raises, see the counterexample). -/
theorem C3_amended (q : ℚ) (m n : Nat) (shuf1 shuf2 : List Bool) (nnt spans : Int)
    (hq0 : 0 < q) (hq1 : q < 1) (hm : 1 ≤ m) (hn : 2 ≤ n)
    (hnnt : nnt = min (max (roundHalfEven ((n : ℚ) * q)) 1) ((n : Int) - 1))
    (hspans : spans = max (roundHalfEven ((nnt : ℚ) / (m : ℚ))) 1)
    (hok : spans ≤ (n : Int) - nnt)
    (h1l : (shuf1.length : Int) = nnt - 1)
    (h1c : (shuf1.count true : Int) = spans - 1)
    (h2l : (shuf2.length : Int) = (n : Int) - nnt - 1)
    (h2c : (shuf2.count true : Int) = spans - 1) :
    ∃ mask, random_spans_noise_mask q m n shuf1 shuf2 = some mask ∧
      mask.length = n ∧ (mask.count true : Int) = nnt ∧
      (countTrueRuns mask : Int) = spans := by
  obtain ⟨hres, hsum1, hsum2, hlen1, hlen2⟩ :=
    random_spans_noise_mask_success q m n shuf1 shuf2 nnt spans hnnt hspans h1l h1c h2l h2c
  refine ⟨_, hres, ?_, ?_, ?_⟩
  · rw [altMask_length]
    have := interleave_sum (random_segmentation shuf2) (random_segmentation shuf1) (by omega)
    omega
  · rw [count_altMask _ _ (by omega)]
    omega
  · unfold countTrueRuns
    have hp2 : ∀ x ∈ random_segmentation shuf2, 0 < x :=
      fun x hx => segLensGo_pos shuf2 1 one_pos x hx
    have hp1 : ∀ x ∈ random_segmentation shuf1, 0 < x :=
      fun x hx => segLensGo_pos shuf1 1 one_pos x hx
    rw [ctr_altMask _ _ (by omega) hp2 hp1 false]
    omega

/-- C3 witness: at `length = 7`, `density = 1/2`, `mean span = 2` (so
`noise_count = 4`, `spans = 2 ≤ 3`) with a legitimate pair of shuffles, the
mask exists with count 4 and 2 runs. -/
theorem C3_witness :
    (0 < (1/2 : ℚ)) ∧ ((1/2 : ℚ) < 1) ∧ (1 ≤ 2) ∧ (2 ≤ 7) ∧
    (∃ mask, random_spans_noise_mask (1/2) 2 7 [true, false, false] [true, false]
        = some mask ∧ mask.length = 7 ∧ (mask.count true : Int) = 4 ∧
        (countTrueRuns mask : Int) = 2) :=
  ⟨by norm_num, by norm_num, by norm_num, by norm_num,
   C3_amended (1/2) 2 7 [true, false, false] [true, false] 4 2
     (by norm_num) (by norm_num) (by norm_num) (by norm_num)
     (by norm_num [roundHalfEven, Int.even_iff]) (by norm_num [roundHalfEven])
     (by norm_num) (by decide) (by decide) (by decide) (by decide)⟩

/-- C10: every mask successfully returned by `random_spans_noise_mask` (with
`length ≥ 2` and shuffles of the shapes the numpy code draws) starts with
`False` (a clean span comes first) and ends with `True` (the final token
falls in a noise span). -/
theorem C10_endpoints (q : ℚ) (m n : Nat) (shuf1 shuf2 : List Bool) (nnt spans : Int)
    (hn : 2 ≤ n)
    (hnnt : nnt = min (max (roundHalfEven ((n : ℚ) * q)) 1) ((n : Int) - 1))
    (hspans : spans = max (roundHalfEven ((nnt : ℚ) / (m : ℚ))) 1)
    (h1l : (shuf1.length : Int) = nnt - 1)
    (h1c : (shuf1.count true : Int) = spans - 1)
    (h2l : (shuf2.length : Int) = (n : Int) - nnt - 1)
    (h2c : (shuf2.count true : Int) = spans - 1)
    (mask : List Bool)
    (hres : random_spans_noise_mask q m n shuf1 shuf2 = some mask) :
    mask[0]? = some false ∧ mask[n - 1]? = some true := by
  obtain ⟨hres2, hsum1, hsum2, hlen1, hlen2⟩ :=
    random_spans_noise_mask_success q m n shuf1 shuf2 nnt spans hnnt hspans h1l h1c h2l h2c
  rw [hres] at hres2
  have hmask : mask = altMask false
      (interleave (random_segmentation shuf2) (random_segmentation shuf1)) :=
    Option.some.inj hres2
  have hC : random_segmentation shuf2 ≠ [] := segLensGo_ne_nil shuf2 1
  have hN : random_segmentation shuf1 ≠ [] := segLensGo_ne_nil shuf1 1
  obtain ⟨c, crest, hCeq⟩ := List.exists_cons_of_ne_nil hC
  obtain ⟨n1, nrest, hNeq⟩ := List.exists_cons_of_ne_nil hN
  have hcpos : 0 < c := segLensGo_pos shuf2 1 one_pos c (by rw [show segLensGo 1 shuf2 = random_segmentation shuf2 from rfl, hCeq]; simp)
  constructor
  · rw [hmask, hCeq, hNeq]
    show (altMask false (c :: n1 :: interleave crest nrest))[0]? = some false
    show (List.replicate c false ++ altMask true (n1 :: interleave crest nrest))[0]? = some false
    rw [List.getElem?_append, if_pos (by simpa using hcpos), List.getElem?_replicate,
      if_pos hcpos]
  · have hlen : mask.length = n := by
      rw [hmask, altMask_length]
      have := interleave_sum (random_segmentation shuf2) (random_segmentation shuf1) (by omega)
      omega
    have hlast : mask.getLast? = some true := by
      rw [hmask]
      exact altMask_getLast _ _ (by omega) hC
        (fun x hx => segLensGo_pos shuf1 1 one_pos x hx)
    rw [← hlen]
    rw [← List.getLast?_eq_getElem?]
    exact hlast

/-- C10 witness: the length-7 run from the C3 witness instance: the returned
mask is `[F,T,F,F,T,T,T]`, starting `False` and ending `True`. -/
theorem C10_witness :
    random_spans_noise_mask (1/2) 2 7 [true, false, false] [true, false]
      = some [false, true, false, false, true, true, true] ∧
    ([false, true, false, false, true, true, true] : List Bool)[0]? = some false ∧
    ([false, true, false, false, true, true, true] : List Bool)[7 - 1]? = some true := by
  have hres : random_spans_noise_mask (1/2) 2 7 [true, false, false] [true, false]
      = some [false, true, false, false, true, true, true] := by
    obtain ⟨h, -, -, -, -⟩ :=
      random_spans_noise_mask_success (1/2) 2 7 [true, false, false] [true, false] 4 2
        (by norm_num [roundHalfEven, Int.even_iff]) (by norm_num [roundHalfEven])
        (by decide) (by decide) (by decide) (by decide)
    rw [h]
    decide
  have h2 := C10_endpoints (1/2) 2 7 [true, false, false] [true, false] 4 2
    (by norm_num) (by norm_num [roundHalfEven, Int.even_iff]) (by norm_num [roundHalfEven])
    (by decide) (by decide) (by decide) (by decide) _ hres
  exact ⟨hres, h2.1, h2.2⟩

/-! ### Segment-Aware Masker (`DataCollatorForPretrain.segment_spans_random_mask`) -/

/-- Lengths of the runs of nonzero attendable flags, as produced by
`np.unique(np.cumsum(np.pad(attn_mask,(1,0))==0), return_counts=True)` with
`segment_len -= 1` applied: the first entry is the length of the leading
nonzero run (which may be `0`), then one entry per `0` flag holding the
length of the nonzero run following it. -/
def segmentLens : List Nat → List Nat
  | [] => [0]
  | a :: xs =>
    if a = 0 then 0 :: segmentLens xs
    else
      match segmentLens xs with
      | [] => [1]
      | h :: t => (h + 1) :: t

/-- The per-segment loop of `segment_spans_random_mask`: for each segment
length, append one `False` (the structural/pad position opening the segment)
followed by the segment's mask — a `random_spans_noise_mask` draw when the
segment is at least `min_mask_span_length` long, all-`False` otherwise.
`rand` is the stream of shuffle pairs consumed by the random draws. -/
def maskSegments (noise_density : ℚ) (mean_noise_span_length min_mask_span_length : Nat) :
    List Nat → List (List Bool × List Bool) → Option (List Bool)
  | [], _ => some []
  | s :: rest, rand =>
    if min_mask_span_length ≤ s then
      match rand with
      | [] => none
      | (a, b) :: rand2 => do
          let mk ← random_spans_noise_mask noise_density mean_noise_span_length s a b
          let tail ← maskSegments noise_density mean_noise_span_length min_mask_span_length rest rand2
          pure (false :: (mk ++ tail))
    else do
      let tail ← maskSegments noise_density mean_noise_span_length min_mask_span_length rest rand
      pure (false :: (List.replicate s false ++ tail))

/-- `DataCollatorForPretrain.segment_spans_random_mask`.  The input is the
attendable-flag array (`0` at structural tokens); the output drops the first
element of the assembled mask (the `final_mask[1:]` of the source,
corresponding to the leading pad).  `none` models any exception raised by an
inner `random_spans_noise_mask` call (and the modelling artifact of the
random stream running dry, which cannot happen in the source). -/
def segment_spans_random_mask (noise_density : ℚ)
    (mean_noise_span_length min_mask_span_length : Nat) (attn_mask : List Nat)
    (rand : List (List Bool × List Bool)) : Option (List Bool) :=
  (maskSegments noise_density mean_noise_span_length min_mask_span_length
    (segmentLens attn_mask) rand).map (·.drop 1)

theorem rsnm_length (q : ℚ) (m s : Nat) (a b : List Bool) (mk : List Bool)
    (h : random_spans_noise_mask q m s a b = some mk) : mk.length = s := by
  unfold random_spans_noise_mask at h
  simp only [] at h
  split at h
  · injection h with h2
    rw [← h2]
    simp
  · exact absurd h (by simp)

theorem dropWhile_head_false {α : Type} (p : α → Bool) :
    ∀ (l : List α) (b : α) (t : List α), l.dropWhile p = b :: t → p b = false := by
  intro l
  induction l with
  | nil => intro b t h; simp [List.dropWhile] at h
  | cons x xs ih =>
    intro b t h
    rw [List.dropWhile_cons] at h
    by_cases hx : p x
    · rw [if_pos hx] at h
      exact ih b t h
    · rw [if_neg hx] at h
      injection h with h1 _
      subst h1
      simpa using hx

theorem segmentLens_all_nonzero : ∀ (attn : List Nat), (∀ a ∈ attn, a ≠ 0) →
    segmentLens attn = [attn.length] := by
  intro attn
  induction attn with
  | nil => intro _; rfl
  | cons a xs ih =>
    intro h
    have ha : ¬ a = 0 := h a (by simp)
    simp only [segmentLens, if_neg ha]
    rw [ih (fun x hx => h x (List.mem_cons_of_mem a hx))]
    simp

theorem segmentLens_append_zero : ∀ (A rest : List Nat), (∀ a ∈ A, a ≠ 0) →
    segmentLens (A ++ 0 :: rest) = A.length :: segmentLens rest := by
  intro A
  induction A with
  | nil =>
    intro rest _
    simp [segmentLens]
  | cons a A2 ih =>
    intro rest h
    have ha : ¬ a = 0 := h a (by simp)
    show segmentLens (a :: (A2 ++ 0 :: rest)) = _
    simp only [segmentLens, if_neg ha]
    rw [ih rest (fun x hx => h x (List.mem_cons_of_mem a hx))]
    simp

theorem maskSegments_cons (q : ℚ) (m minlen : Nat) (s : Nat) (L : List Nat)
    (rand : List (List Bool × List Bool)) (out : List Bool)
    (h : maskSegments q m minlen (s :: L) rand = some out) :
    ∃ blk tail rand2, out = false :: (blk ++ tail) ∧ blk.length = s ∧
      maskSegments q m minlen L rand2 = some tail := by
  unfold maskSegments at h
  split at h
  · match rand, h with
    | (a, b) :: rand2, h =>
      simp only [Option.bind_eq_bind, Option.bind_eq_some, Option.pure_def,
        Option.some.injEq] at h
      obtain ⟨mk, hmk, tail, htail, hout⟩ := h
      exact ⟨mk, tail, rand2, hout.symm, rsnm_length q m s a b mk hmk, htail⟩
  · simp only [Option.bind_eq_bind, Option.bind_eq_some, Option.pure_def,
      Option.some.injEq] at h
    obtain ⟨tail, htail, hout⟩ := h
    exact ⟨List.replicate s false, tail, rand, hout.symm, by simp, htail⟩

theorem maskSegments_attn (q : ℚ) (m minlen : Nat) :
    ∀ (N : Nat) (attn : List Nat), attn.length ≤ N →
    ∀ (rand : List (List Bool × List Bool)) (out : List Bool),
    maskSegments q m minlen (segmentLens attn) rand = some out →
    out.length = attn.length + 1 ∧ out[0]? = some false ∧
    ∀ i, attn[i]? = some 0 → out[i + 1]? = some false := by
  intro N
  induction N with
  | zero =>
    intro attn hlen rand out h
    have : attn = [] := List.eq_nil_of_length_eq_zero (by omega)
    subst this
    rw [show segmentLens [] = [0] from rfl] at h
    obtain ⟨blk, tail, rand2, hout, hblk, htail⟩ := maskSegments_cons _ _ _ _ _ _ _ h
    have hblk2 : blk = [] := List.eq_nil_of_length_eq_zero hblk
    have htail2 : tail = [] := by
      unfold maskSegments at htail
      injection htail with h3
      exact h3.symm
    subst hblk2; subst htail2
    subst hout
    refine ⟨rfl, by simp, ?_⟩
    intro i hi
    simp at hi
  | succ N ih =>
    intro attn hlen rand out h
    rcases hdw : attn.dropWhile (· ≠ 0) with _ | ⟨b, rest⟩
    · -- no zero flag at all: one segment covering everything
      have hattn : attn.takeWhile (· ≠ 0) = attn := by
        have := List.takeWhile_append_dropWhile (p := fun x => x ≠ 0) (l := attn)
        rw [hdw] at this
        simpa using this
      have hnz : ∀ a ∈ attn, a ≠ 0 := by
        intro x hx
        rw [← hattn] at hx
        have := List.mem_takeWhile_imp hx
        simpa using this
      rw [segmentLens_all_nonzero attn hnz] at h
      obtain ⟨blk, tail, rand2, hout, hblk, htail⟩ := maskSegments_cons _ _ _ _ _ _ _ h
      have htail2 : tail = [] := by
        unfold maskSegments at htail
        injection htail with h3
        exact h3.symm
      subst htail2
      subst hout
      refine ⟨by simp [hblk], by simp, ?_⟩
      intro i hi
      have : (0 : Nat) ∈ attn := List.getElem?_mem hi
      exact absurd rfl (hnz 0 this)
    · -- attn = A ++ 0 :: rest with A the leading nonzero run
      have hb : b = 0 := by
        have := dropWhile_head_false (fun x => decide (x ≠ 0)) attn b rest hdw
        simpa using this
      subst hb
      set A := attn.takeWhile (· ≠ 0) with hA
      have hattn : attn = A ++ 0 :: rest := by
        conv_lhs => rw [← List.takeWhile_append_dropWhile (p := fun x => x ≠ 0) (l := attn)]
        rw [hdw]
      have hAnz : ∀ a ∈ A, a ≠ 0 := by
        intro x hx
        have := List.mem_takeWhile_imp hx
        simpa using this
      have hrest_len : rest.length ≤ N := by
        have : attn.length = A.length + 1 + rest.length := by
          rw [hattn]; simp; omega
        omega
      rw [hattn, segmentLens_append_zero A rest hAnz] at h
      obtain ⟨blk, tail, rand2, hout, hblk, htail⟩ := maskSegments_cons _ _ _ _ _ _ _ h
      obtain ⟨htlen, ht0, htz⟩ := ih rest hrest_len rand2 tail htail
      subst hout
      have hlen2 : (false :: (blk ++ tail)).length = attn.length + 1 := by
        rw [hattn]
        simp [hblk, htlen]
        try omega
      refine ⟨hlen2, by simp, ?_⟩
      intro i hi
      rw [hattn] at hi
      rw [show i + 1 = i + 1 from rfl]
      simp only [List.getElem?_cons_succ]
      rcases lt_trichotomy i A.length with hlt | heq | hgt
      · -- inside the leading nonzero run: contradiction
        rw [List.getElem?_append, if_pos (by simpa using hlt)] at hi
        have : (0 : Nat) ∈ A := List.getElem?_mem hi
        exact absurd rfl (hAnz 0 this)
      · subst heq
        rw [List.getElem?_append, if_neg (by omega), hblk]
        simpa using ht0
      · rw [List.getElem?_append, if_neg (by omega)] at hi
        rw [List.getElem?_append, if_neg (by omega), hblk]
        rcases Nat.exists_eq_add_of_lt hgt with ⟨j, hj⟩
        have hidx : i - A.length = j + 1 := by omega
        rw [hidx] at hi
        simp only [List.getElem?_cons_succ] at hi
        have := htz j hi
        have hidx2 : i - A.length = j + 1 := by omega
        rw [hidx2]
        exact this

/-- C5: whenever `segment_spans_random_mask` returns a mask, every position
whose attendable flag is `0` (the structural tokens `<head>`/`<pkt>`) is
`False` in the mask, and the mask has exactly the length of the input flag
array. -/
theorem C5_structural_exclusion (q : ℚ) (m minlen : Nat) (attn : List Nat)
    (rand : List (List Bool × List Bool)) (mask : List Bool)
    (hres : segment_spans_random_mask q m minlen attn rand = some mask) :
    mask.length = attn.length ∧
    ∀ (i : Nat), attn[i]? = some 0 → mask[i]? = some false := by
  unfold segment_spans_random_mask at hres
  rw [Option.map_eq_some'] at hres
  obtain ⟨out, hout, hmask⟩ := hres
  obtain ⟨hlen, h0, hz⟩ :=
    maskSegments_attn q m minlen attn.length attn (le_refl _) rand out hout
  subst hmask
  constructor
  · simp [hlen]
  · intro i hi
    have hdrop : (out.drop 1)[i]? = out[1 + i]? := List.getElem?_drop out 1 i
    rw [hdrop, Nat.add_comm 1 i]
    exact hz i hi

/-- C5 witness: flags `[0, 1, 1, 0, 1]` (structural at positions 0 and 3)
with `min_mask_span_length = 5`, so every run is left unmasked: the result is
all-`False`, length 5, with the structural positions `False`. -/
theorem C5_witness :
    segment_spans_random_mask (1/2) 3 5 [0, 1, 1, 0, 1] []
      = some [false, false, false, false, false] ∧
    ([false, false, false, false, false] : List Bool).length = [0, 1, 1, 0, 1].length ∧
    (([0, 1, 1, 0, 1] : List Nat)[0]? = some 0 →
      ([false, false, false, false, false] : List Bool)[0]? = some false) ∧
    (([0, 1, 1, 0, 1] : List Nat)[3]? = some 0 →
      ([false, false, false, false, false] : List Bool)[3]? = some false) := by
  have hres : segment_spans_random_mask (1/2) 3 5 [0, 1, 1, 0, 1] []
      = some [false, false, false, false, false] := by decide
  have h := C5_structural_exclusion (1/2) 3 5 [0, 1, 1, 0, 1] []
    [false, false, false, false, false] hres
  exact ⟨hres, h.1, fun _ => h.2 0 (by decide), fun _ => h.2 3 (by decide)⟩

/-! ### Sentinel Encoder (`DataCollatorForPretrain.create_sentinel_ids`) -/

/-- Base sentinel id (`extra_start_token_id = 107` in the source). -/
def extra_start_token_id : Int := 107

/-- `DataCollatorForPretrain.create_sentinel_ids`, one row at a time (the
source operates on each row of the batch independently with `axis=-1`).
`start_indices = mask - roll(mask,1)*mask` with `start_indices[:,0]`
overwritten by `mask[:,0]` is exactly elementwise `m_i - m_{i-1}·m_i`
with `m_{-1} = 0`, i.e. zipping the row against `0 :: row`. -/
def create_sentinel_ids (mask_indices : List Int) : List Int :=
  let start_indices :=
    List.zipWith (fun m mprev => m - mprev * m) mask_indices (0 :: mask_indices)
  let csum := cumsumZ start_indices
  let sentinel_a := List.zipWith (fun s cs => if s ≠ 0 then cs else s) start_indices csum
  let sentinel_b := sentinel_a.map (fun v => if v ≠ 0 then extra_start_token_id - v else 0)
  List.zipWith (fun w ms => w - ms) sentinel_b
    (List.zipWith (fun m s => m - s) mask_indices start_indices)

/-- Boolean mask row rendered as the `0/1` integers of
`spans_noise_masks.astype(int)`. -/
def maskToInts (mask : List Bool) : List Int :=
  mask.map (fun b => if b then 1 else 0)

/-- Spec-side: position `i` starts a masked span (`mask[i]` set and previous
position unset or absent). -/
def isStartB (mask : List Bool) (i : Nat) : Bool :=
  (mask[i]? == some true) && (i == 0 || mask[i - 1]? == some false)

/-- Spec-side: the positions of the span starts, left to right. -/
def startPositions (mask : List Bool) : List Nat :=
  (List.range mask.length).filter (fun i => isStartB mask i)

/-- Spec-side: number of span starts at positions `≤ i`. -/
def startCount (mask : List Bool) (i : Nat) : Nat :=
  ((List.range (i + 1)).filter (fun j => isStartB mask j)).length

theorem zipWith_getElem_eq {α β γ : Type} (f : α → β → γ) (l1 : List α) (l2 : List β)
    (i : Nat) (a : α) (b : β) (h1 : l1[i]? = some a) (h2 : l2[i]? = some b) :
    (List.zipWith f l1 l2)[i]? = some (f a b) := by
  rw [List.getElem?_zipWith']
  rw [h1, h2]
  rfl

theorem cumsumZ_getElem : ∀ (l : List Int) (i : Nat), i < l.length →
    (cumsumZ l)[i]? = some ((l.take (i + 1)).sum) := by
  intro l
  induction l with
  | nil => intro i hi; simp at hi
  | cons x xs ih =>
    intro i hi
    cases i with
    | zero => simp [cumsumZ]
    | succ j =>
      show (x :: (cumsumZ xs).map (x + ·))[j + 1]? = _
      rw [List.getElem?_cons_succ]
      have hj : j < xs.length := by simpa using hi
      rw [List.getElem?_map, ih j hj]
      simp [List.sum_cons]

theorem maskToInts_getElem (mask : List Bool) (i : Nat) (b : Bool)
    (h : mask[i]? = some b) :
    (maskToInts mask)[i]? = some (if b then (1 : Int) else 0) := by
  unfold maskToInts
  rw [List.getElem?_map, h]
  rfl

/-- The `start_indices` row of `create_sentinel_ids` is the indicator of
`isStartB` rendered over integers. -/
theorem start_indices_getElem (mask : List Bool) (i : Nat) (hi : i < mask.length) :
    (List.zipWith (fun m mprev => m - mprev * m) (maskToInts mask)
        (0 :: maskToInts mask))[i]? = some (if isStartB mask i then (1 : Int) else 0) := by
  obtain ⟨b, hb⟩ : ∃ b, mask[i]? = some b := ⟨_, List.getElem?_eq_getElem hi⟩
  cases i with
  | zero =>
    rw [zipWith_getElem_eq _ _ _ 0 _ _ (maskToInts_getElem mask 0 b hb)
      (show (0 :: maskToInts mask)[0]? = some 0 by simp)]
    unfold isStartB
    rw [hb]
    cases b <;> simp
  | succ j =>
    have hj : j < mask.length := by omega
    obtain ⟨bp, hbp⟩ : ∃ bp, mask[j]? = some bp := ⟨mask[j], List.getElem?_eq_getElem hj⟩
    rw [zipWith_getElem_eq _ _ _ (j + 1) _ _ (maskToInts_getElem mask (j + 1) b hb)
      (show (0 :: maskToInts mask)[j + 1]? = some (if bp then (1 : Int) else 0) by
        rw [List.getElem?_cons_succ]
        exact maskToInts_getElem mask j bp hbp)]
    unfold isStartB
    rw [hb]
    simp only [Nat.add_sub_cancel, hbp]
    cases b <;> cases bp <;> simp

theorem startCount_succ (mask : List Bool) (i : Nat) :
    startCount mask (i + 1) =
      startCount mask i + (if isStartB mask (i + 1) then 1 else 0) := by
  unfold startCount
  rw [List.range_succ, List.filter_append, List.length_append]
  by_cases h : isStartB mask (i + 1) <;> simp [h, List.filter]

theorem start_take_sum (mask : List Bool) : ∀ (i : Nat), i < mask.length →
    ((List.zipWith (fun m mprev => m - mprev * m) (maskToInts mask)
        (0 :: maskToInts mask)).take (i + 1)).sum = (startCount mask i : Int) := by
  intro i
  induction i with
  | zero =>
    intro hi
    rw [List.take_succ]
    rw [start_indices_getElem mask 0 hi]
    unfold startCount
    have hr1 : List.range (0 + 1) = [0] := rfl
    rw [hr1]
    by_cases h : isStartB mask 0 <;> simp [h, List.filter]
  | succ j ih =>
    intro hi
    rw [List.take_succ]
    rw [start_indices_getElem mask (j + 1) hi]
    rw [List.sum_append]
    rw [ih (by omega)]
    rw [startCount_succ]
    by_cases h : isStartB mask (j + 1) <;> simp [h]

theorem startCount_pos_of_isStart (mask : List Bool) (i : Nat)
    (h : isStartB mask i = true) : 1 ≤ startCount mask i := by
  unfold startCount
  have hmem : i ∈ (List.range (i + 1)).filter (fun j => isStartB mask j) :=
    List.mem_filter.mpr ⟨by simp, h⟩
  have := List.length_pos.mpr (List.ne_nil_of_mem hmem)
  omega

theorem isStartB_false_of_not_mem (mask : List Bool) (i : Nat)
    (h : mask[i]? = some false) : isStartB mask i = false := by
  unfold isStartB
  rw [h]
  rfl

/-- Positional characterization of `create_sentinel_ids`: `0` at unmasked
positions, `107 - k` at the start of the `k`-th span (`k` = number of span
starts up to and including the position), `-1` at interior masked
positions. -/
theorem create_sentinel_ids_spec (mask : List Bool) (i : Nat) (hi : i < mask.length) :
    (create_sentinel_ids (maskToInts mask))[i]? =
      some (if mask[i]? = some true then
              (if isStartB mask i = true then
                extra_start_token_id - (startCount mask i : Int)
              else -1)
            else 0) := by
  obtain ⟨b, hb⟩ : ∃ b, mask[i]? = some b := ⟨_, List.getElem?_eq_getElem hi⟩
  have hSIlen : (List.zipWith (fun m mprev => m - mprev * m) (maskToInts mask)
      (0 :: maskToInts mask)).length = mask.length := by
    rw [List.length_zipWith]
    simp [maskToInts]
  have hSI := start_indices_getElem mask i hi
  have hcs : (cumsumZ (List.zipWith (fun m mprev => m - mprev * m) (maskToInts mask)
      (0 :: maskToInts mask)))[i]? = some ((startCount mask i : Nat) : Int) := by
    rw [cumsumZ_getElem _ i (by omega)]
    rw [start_take_sum mask i hi]
  have hm := maskToInts_getElem mask i b hb
  show (List.zipWith (fun w ms => w - ms)
      ((List.zipWith (fun s cs => if s ≠ 0 then cs else s)
          (List.zipWith (fun m mprev => m - mprev * m) (maskToInts mask)
            (0 :: maskToInts mask))
          (cumsumZ (List.zipWith (fun m mprev => m - mprev * m) (maskToInts mask)
            (0 :: maskToInts mask)))).map
        (fun v => if v ≠ 0 then extra_start_token_id - v else 0))
      (List.zipWith (fun m s => m - s) (maskToInts mask)
        (List.zipWith (fun m mprev => m - mprev * m) (maskToInts mask)
          (0 :: maskToInts mask))))[i]? = _
  rw [zipWith_getElem_eq _ _ _ i _ _
    (show ((List.zipWith (fun s cs => if s ≠ 0 then cs else s)
        (List.zipWith (fun m mprev => m - mprev * m) (maskToInts mask)
          (0 :: maskToInts mask))
        (cumsumZ (List.zipWith (fun m mprev => m - mprev * m) (maskToInts mask)
          (0 :: maskToInts mask)))).map
      (fun v => if v ≠ 0 then extra_start_token_id - v else 0))[i]?
        = some (if (if (if isStartB mask i then (1:Int) else 0) ≠ 0
                  then ((startCount mask i : Nat) : Int)
                  else (if isStartB mask i then (1:Int) else 0)) ≠ 0
              then extra_start_token_id -
                (if (if isStartB mask i then (1:Int) else 0) ≠ 0
                  then ((startCount mask i : Nat) : Int)
                  else (if isStartB mask i then (1:Int) else 0))
              else 0) by
      rw [List.getElem?_map]
      rw [zipWith_getElem_eq _ _ _ i _ _ hSI hcs]
      rfl)
    (zipWith_getElem_eq _ _ _ i _ _ hm hSI)]
  rw [hb]
  by_cases hs : isStartB mask i = true
  · have hpos := startCount_pos_of_isStart mask i hs
    have hbtrue : b = true := by
      unfold isStartB at hs
      rw [hb] at hs
      cases b
      · simp at hs
      · rfl
    subst hbtrue
    simp only [hs, if_true, if_pos rfl]
    have hne : ((startCount mask i : Nat) : Int) ≠ 0 := by
      omega
    simp [hne]
  · have hsf : isStartB mask i = false := by
      cases hval : isStartB mask i
      · rfl
      · exact absurd hval hs
    cases b
    · simp [hsf]
    · simp [hsf]

theorem sorted_getElem_count : ∀ (l : List Nat), l.Pairwise (· < ·) →
    ∀ (k i : Nat), l[k]? = some i → (l.filter (fun x => x ≤ i)).length = k + 1 := by
  intro l
  induction l with
  | nil => intro _ k i h; simp at h
  | cons x t ih =>
    intro hp k i h
    have hxt := (List.pairwise_cons.mp hp).1
    cases k with
    | zero =>
      rw [List.getElem?_cons_zero] at h
      injection h with hxi
      subst hxi
      rw [List.filter_cons]
      have hxx : (decide (x ≤ x)) = true := by simp
      rw [if_pos hxx]
      have hft : t.filter (fun y => y ≤ x) = [] := by
        rw [List.filter_eq_nil_iff]
        intro a ha
        have := hxt a ha
        simp
        omega
      rw [hft]
      rfl
    | succ k2 =>
      rw [List.getElem?_cons_succ] at h
      have hi_mem : i ∈ t := List.getElem?_mem h
      have hxlt : x < i := hxt i hi_mem
      rw [List.filter_cons]
      have hxi : (decide (x ≤ i)) = true := by simp; omega
      rw [if_pos hxi]
      rw [List.length_cons, ih (List.pairwise_cons.mp hp).2 k2 i h]

theorem startCount_eq_filter (mask : List Bool) (i : Nat) (hi : i < mask.length) :
    startCount mask i = ((startPositions mask).filter (fun x => x ≤ i)).length := by
  unfold startCount startPositions
  rw [List.filter_filter]
  have hsplit : List.range mask.length
      = List.range (i + 1) ++ (List.range (mask.length - (i + 1))).map ((i + 1) + ·) := by
    rw [← List.range_add]
    congr 1
    omega
  rw [hsplit, List.filter_append, List.length_append]
  have h2 : ((List.range (mask.length - (i + 1))).map ((i + 1) + ·)).filter
      (fun a => decide (a ≤ i) && isStartB mask a) = [] := by
    rw [List.filter_eq_nil_iff]
    intro a ha
    rcases List.mem_map.mp ha with ⟨q2, _, rfl⟩
    simp
    omega
  rw [h2]
  have h3 : (List.range (i + 1)).filter (fun a => decide (a ≤ i) && isStartB mask a)
      = (List.range (i + 1)).filter (fun j => isStartB mask j) := by
    apply List.filter_congr
    intro a ha
    have : a ≤ i := by simp at ha; omega
    simp [this]
  rw [h3]
  simp

/-- C8: `create_sentinel_ids` outputs `base_sentinel - k` (base 107) at the
first position of the `k`-th masked span (1-indexed, left to right), `-1` at
every interior masked position, and `0` at every unmasked position. -/
theorem C8_sentinel_encoding (mask : List Bool) :
    (∀ (k i : Nat), (startPositions mask)[k]? = some i →
        (create_sentinel_ids (maskToInts mask))[i]? =
          some (extra_start_token_id - ((k : Int) + 1))) ∧
    (∀ (i : Nat), mask[i]? = some true → isStartB mask i = false →
        (create_sentinel_ids (maskToInts mask))[i]? = some (-1)) ∧
    (∀ (i : Nat), mask[i]? = some false →
        (create_sentinel_ids (maskToInts mask))[i]? = some 0) := by
  refine ⟨?_, ?_, ?_⟩
  · intro k i h
    have himem : i ∈ startPositions mask := List.getElem?_mem h
    unfold startPositions at himem
    have h2 := List.mem_filter.mp himem
    have hi : i < mask.length := by
      have := h2.1
      simpa using this
    have hstart : isStartB mask i = true := by simpa using h2.2
    have hmtrue : mask[i]? = some true := by
      unfold isStartB at hstart
      have := (Bool.and_eq_true _ _).mp hstart
      exact eq_of_beq this.1
    have hsorted : (startPositions mask).Pairwise (· < ·) :=
      (List.pairwise_lt_range mask.length).filter _
    have hcount := sorted_getElem_count (startPositions mask) hsorted k i h
    rw [create_sentinel_ids_spec mask i hi]
    rw [if_pos hmtrue, if_pos hstart]
    rw [startCount_eq_filter mask i hi, hcount]
    push_cast
    ring_nf
  · intro i hm hs
    have hi : i < mask.length := by
      by_contra hcon
      rw [List.getElem?_eq_none (by omega)] at hm
      exact Option.noConfusion hm
    rw [create_sentinel_ids_spec mask i hi]
    rw [if_pos hm, hs]
    simp
  · intro i hm
    have hi : i < mask.length := by
      by_contra hcon
      rw [List.getElem?_eq_none (by omega)] at hm
      exact Option.noConfusion hm
    rw [create_sentinel_ids_spec mask i hi]
    rw [if_neg (by rw [hm]; simp)]

/-- C8 witness: mask `[F,T,T,F,T]` has span starts at positions 1 and 4; the
encoder outputs `[0, 106, -1, 0, 105]`. -/
theorem C8_witness :
    (startPositions [false, true, true, false, true])[1]? = some 4 ∧
    (create_sentinel_ids (maskToInts [false, true, true, false, true]))[4]?
      = some (extra_start_token_id - ((1 : Int) + 1)) ∧
    (create_sentinel_ids (maskToInts [false, true, true, false, true]))[2]? = some (-1) ∧
    (create_sentinel_ids (maskToInts [false, true, true, false, true]))[0]? = some 0 :=
  ⟨by decide,
   (C8_sentinel_encoding [false, true, true, false, true]).1 1 4 (by decide),
   (C8_sentinel_encoding [false, true, true, false, true]).2.1 2 (by decide) (by decide),
   (C8_sentinel_encoding [false, true, true, false, true]).2.2 0 (by decide)⟩

/-! ### Sequence Compactor (`DataCollatorForPretrain.filter_input_ids`) -/

/-- `DataCollatorForPretrain.filter_input_ids`, one row at a time.
`np.where(sentinel_ids != 0, sentinel_ids, input_ids)` overlays the
sentinels, `item[item >= 0]` drops the negative deletion markers (and the
`-100` paddings of the stored rows), labels additionally drop their final
retained element (`[:-1]`); then one EOS is appended and the row is padded to
`set_length` with the pad id (inputs) or `-100` (labels).  `none` models the
`ValueError` numpy raises when the second `np.pad` is handed the negative
width `set_length - len(arr) - 1 < 0`. -/
def filter_input_ids_row (input_ids sentinel_ids : List Int) (set_length : Nat)
    (is_label : Bool) : Option (List Int) :=
  let input_ids_full :=
    List.zipWith (fun s x => if s ≠ 0 then s else x) sentinel_ids input_ids
  let kept0 := input_ids_full.filter (fun v => 0 ≤ v)
  let kept := if is_label then kept0.dropLast else kept0
  if kept.length + 1 ≤ set_length then
    some (kept ++ [EOS_ID] ++
      List.replicate (set_length - kept.length - 1) (if is_label then -100 else PAD_ID))
  else
    none

/-- Batch version of `filter_input_ids`: row-wise, any row failure
propagates (the numpy exception aborts the whole call). -/
def filter_input_ids (rows sentinels : List (List Int)) (set_length : Nat)
    (is_label : Bool) : Option (List (List Int)) :=
  (List.zip rows sentinels).mapM
    (fun p => filter_input_ids_row p.1 p.2 set_length is_label)

/-- C4: the Sequence Compactor appends exactly one end-marker after the
overlay-and-drop step (labels additionally drop their final retained
element), pads on the right with the pad id (inputs) or `-100` (labels) to
exactly `set_length` entries, and returns nothing (raises) precisely when the
compacted-plus-end-marker length exceeds `set_length`. -/
theorem C4_compactor (input_ids sentinel_ids : List Int) (set_length : Nat)
    (is_label : Bool) (kept : List Int)
    (hkept : kept =
      (if is_label then
        ((List.zipWith (fun s x => if s ≠ 0 then s else x) sentinel_ids
          input_ids).filter (fun v => 0 ≤ v)).dropLast
      else
        (List.zipWith (fun s x => if s ≠ 0 then s else x) sentinel_ids
          input_ids).filter (fun v => 0 ≤ v))) :
    (filter_input_ids_row input_ids sentinel_ids set_length is_label = none ↔
      set_length < kept.length + 1) ∧
    (∀ out, filter_input_ids_row input_ids sentinel_ids set_length is_label = some out →
      out.length = set_length ∧
      out = kept ++ [EOS_ID] ++
        List.replicate (set_length - kept.length - 1)
          (if is_label then -100 else PAD_ID)) := by
  unfold filter_input_ids_row
  simp only []
  rw [← hkept]
  by_cases hc : kept.length + 1 ≤ set_length
  · rw [if_pos hc]
    constructor
    · constructor
      · intro h
        exact Option.noConfusion h
      · intro h
        omega
    · intro out hout
      injection hout with hout
      subst hout
      constructor
      · simp
        omega
      · rfl
  · rw [if_neg hc]
    constructor
    · constructor
      · intro _
        omega
      · intro _
        rfl
    · intro out hout
      exact Option.noConfusion hout

/-- C4 witness: row `[5,-1,6]` with sentinels `[106,-1,0]` keeps `[106, 6]`,
gets one EOS and one pad at `set_length = 4`; at `set_length = 2` the same
row overflows and the compactor raises. -/
theorem C4_witness :
    filter_input_ids_row [5, -1, 6] [106, -1, 0] 4 false
      = some [106, 6, EOS_ID, PAD_ID] ∧
    ([106, 6, EOS_ID, PAD_ID] : List Int).length = 4 ∧
    filter_input_ids_row [5, -1, 6] [106, -1, 0] 2 false = none :=
  ⟨by decide,
   ((C4_compactor [5, -1, 6] [106, -1, 0] 4 false [106, 6] (by decide)).2
     [106, 6, EOS_ID, PAD_ID] (by decide)).1,
   (C4_compactor [5, -1, 6] [106, -1, 0] 2 false [106, 6] (by decide)).1.mpr
     (by decide)⟩

/-! ### Batch Assembler: `head_payload_seg_ind` (`flip_segment_id` XOR) -/

/-- The `seg_token_mask` row: `1` at `<head>`/`<pkt>` positions, `0`
elsewhere. -/
def seg_token_mask_row (input : List Int) : List Nat :=
  input.map (fun t => if t = HEAD_ID ∨ t = PKT_ID then 1 else 0)

/-- Inner sweep of `DataCollatorForPretrain.flip_segment_id` over one row:
the output starts as all ones, and every `1` in the input flips the whole
suffix from its own position on; `cur` is the running output value. -/
def flipGo : List Nat → Nat → List Nat
  | [], _ => []
  | x :: xs, cur =>
    let cur2 := if x = 1 then 1 - cur else cur
    cur2 :: flipGo xs cur2

/-- `DataCollatorForPretrain.flip_segment_id`, one row. -/
def flip_segment_id_row (s : List Nat) : List Nat := flipGo s 1

/-- `head_payload_seg_ind` of the Batch Assembler:
`flip_segment_id(seg_token_mask) ^ seg_token_mask`, one row. -/
def head_payload_row (input : List Int) : List Nat :=
  List.zipWith (fun a b => a ^^^ b)
    (flip_segment_id_row (seg_token_mask_row input)) (seg_token_mask_row input)

/-- Spec-side: one well-formed packet serialization:
header tokens, `<head>`, payload tokens, `<pkt>`. -/
def mkPacket (hdr payload : List Int) : List Int :=
  hdr ++ [HEAD_ID] ++ payload ++ [PKT_ID]

/-- Spec-side: a row that is a concatenation of well-formed packets. -/
def packetsRow (pkts : List (List Int × List Int)) : List Int :=
  (pkts.map (fun p => mkPacket p.1 p.2)).flatten

/-- Spec-side: the expected `head_payload_seg_ind` pattern — `1` on every
header token and on the `<head>` marker, `0` on every payload token and on
the `<pkt>` marker. -/
def headerPattern (pkts : List (List Int × List Int)) : List Nat :=
  (pkts.map (fun p =>
    List.replicate (p.1.length + 1) 1 ++ List.replicate (p.2.length + 1) 0)).flatten

/-- The structural mask of one well-formed packet. -/
def smaskPkt (a b : Nat) : List Nat :=
  List.replicate a 0 ++ 1 :: (List.replicate b 0 ++ [1])

theorem flipGo_replicate_zero : ∀ (n : Nat) (rest : List Nat) (cur : Nat),
    flipGo (List.replicate n 0 ++ rest) cur = List.replicate n cur ++ flipGo rest cur := by
  intro n
  induction n with
  | zero => simp
  | succ k ih =>
    intro rest cur
    rw [List.replicate_succ, List.cons_append]
    show (if (0:Nat) = 1 then 1 - cur else cur) :: flipGo (List.replicate k 0 ++ rest)
      (if (0:Nat) = 1 then 1 - cur else cur) = _
    rw [if_neg (by omega)]
    rw [ih rest cur]
    simp [List.replicate_succ]

theorem flipGo_one (rest : List Nat) (cur : Nat) :
    flipGo (1 :: rest) cur = (1 - cur) :: flipGo rest (1 - cur) := by
  show (if (1:Nat) = 1 then 1 - cur else cur) :: _ = _
  rw [if_pos rfl]

theorem flipGo_packet (a b : Nat) (rest : List Nat) :
    flipGo (smaskPkt a b ++ rest) 1
      = (List.replicate a 1 ++ 0 :: (List.replicate b 0 ++ [1])) ++ flipGo rest 1 := by
  unfold smaskPkt
  rw [List.append_assoc]
  rw [flipGo_replicate_zero a _ 1]
  rw [List.cons_append, flipGo_one]
  show List.replicate a 1 ++ (1-1) :: flipGo ((List.replicate b 0 ++ [1]) ++ rest) (1-1) = _
  rw [List.append_assoc, flipGo_replicate_zero b _ (1-1)]
  rw [List.cons_append, flipGo_one]
  simp

theorem zipWith_xor_replicate (c d : Nat) : ∀ (a : Nat) (L1 L2 : List Nat),
    List.zipWith (fun x y => x ^^^ y) (List.replicate a c ++ L1) (List.replicate a d ++ L2)
      = List.replicate a (c ^^^ d) ++ List.zipWith (fun x y => x ^^^ y) L1 L2 := by
  intro a
  induction a with
  | zero => simp
  | succ k ih =>
    intro L1 L2
    simp only [List.replicate_succ, List.cons_append, List.zipWith_cons_cons]
    rw [ih]

/-- C9 counterexample: in the row `[<pkt>, 7]` the `<pkt>` marker itself
receives `head_payload_seg_ind = 1`, although the claim says `<pkt>` markers
(and payload) are always `0`: the flip computation only tracks the parity of
structural tokens seen so far and cannot distinguish `<head>` from `<pkt>`,
so it is only correct on rows whose structural tokens alternate
`<head>,<pkt>,<head>,<pkt>,...`. -/
theorem C9_counterexample :
    ([PKT_ID, 7] : List Int)[0]? = some PKT_ID ∧
    (head_payload_row [PKT_ID, 7])[0]? = some 1 := by
  constructor
  · rfl
  · decide

theorem seg_token_mask_mkPacket (hdr pl : List Int)
    (hh : ∀ t ∈ hdr, t ≠ HEAD_ID ∧ t ≠ PKT_ID)
    (hp : ∀ t ∈ pl, t ≠ HEAD_ID ∧ t ≠ PKT_ID) :
    seg_token_mask_row (mkPacket hdr pl) = smaskPkt hdr.length pl.length := by
  unfold seg_token_mask_row mkPacket smaskPkt
  rw [List.map_append, List.map_append, List.map_append]
  have hhdr : hdr.map (fun t => if t = HEAD_ID ∨ t = PKT_ID then 1 else 0)
      = List.replicate hdr.length 0 := by
    apply List.eq_replicate.mpr
    refine ⟨by simp, ?_⟩
    intro x hx
    rcases List.mem_map.mp hx with ⟨t, ht, rfl⟩
    have := hh t ht
    rw [if_neg (by tauto)]
  have hpl : pl.map (fun t => if t = HEAD_ID ∨ t = PKT_ID then 1 else 0)
      = List.replicate pl.length 0 := by
    apply List.eq_replicate.mpr
    refine ⟨by simp, ?_⟩
    intro x hx
    rcases List.mem_map.mp hx with ⟨t, ht, rfl⟩
    have := hp t ht
    rw [if_neg (by tauto)]
  rw [hhdr, hpl]
  simp

/-- C9 (amended): on every row that is a concatenation of well-formed packets
(header tokens, `<head>`, payload tokens, `<pkt>`, with no structural token
inside header or payload), `head_payload_seg_ind` is `1` exactly on header
tokens and the `<head>` marker and `0` on payload tokens and the `<pkt>`
marker.  (On arbitrary arrangements of `<head>`/`<pkt>` the computation only
tracks structural parity and the claim fails, see the counterexample.) -/
theorem C9_amended : ∀ (pkts : List (List Int × List Int)),
    (∀ p ∈ pkts, (∀ t ∈ p.1, t ≠ HEAD_ID ∧ t ≠ PKT_ID) ∧
        (∀ t ∈ p.2, t ≠ HEAD_ID ∧ t ≠ PKT_ID)) →
    head_payload_row (packetsRow pkts) = headerPattern pkts := by
  intro pkts
  induction pkts with
  | nil => intro _; rfl
  | cons p rest ih =>
    intro hcl
    obtain ⟨hh, hp⟩ := hcl p (by simp)
    have hrow : packetsRow (p :: rest) = mkPacket p.1 p.2 ++ packetsRow rest := by
      unfold packetsRow
      simp
    have hsm : seg_token_mask_row (packetsRow (p :: rest))
        = smaskPkt p.1.length p.2.length ++ seg_token_mask_row (packetsRow rest) := by
      rw [hrow]
      unfold seg_token_mask_row
      rw [List.map_append]
      rw [show (mkPacket p.1 p.2).map (fun t => if t = HEAD_ID ∨ t = PKT_ID then 1 else 0)
        = smaskPkt p.1.length p.2.length from seg_token_mask_mkPacket p.1 p.2 hh hp]
    unfold head_payload_row flip_segment_id_row
    rw [hsm, flipGo_packet]
    rw [List.zipWith_append _ _ _ _ _ (by simp [smaskPkt])]
    have hleft : List.zipWith (fun x y => x ^^^ y)
        (List.replicate p.1.length 1 ++ 0 :: (List.replicate p.2.length 0 ++ [1]))
        (smaskPkt p.1.length p.2.length)
        = List.replicate (p.1.length + 1) 1 ++ List.replicate (p.2.length + 1) 0 := by
      unfold smaskPkt
      rw [zipWith_xor_replicate]
      rw [List.zipWith_cons_cons]
      rw [zipWith_xor_replicate]
      have e1 : (1 : Nat) ^^^ 0 = 1 := rfl
      have e2 : (0 : Nat) ^^^ 1 = 1 := rfl
      have e3 : (0 : Nat) ^^^ 0 = 0 := rfl
      have e4 : (1 : Nat) ^^^ 1 = 0 := rfl
      rw [e1, e2, e3]
      rw [show List.zipWith (fun x y => x ^^^ y) ([1] : List Nat) ([1] : List Nat)
        = [0] from rfl]
      simp [List.replicate_succ', List.append_assoc]
    rw [hleft]
    have ih2 : List.zipWith (fun a b => a ^^^ b)
        (flipGo (seg_token_mask_row (packetsRow rest)) 1)
        (seg_token_mask_row (packetsRow rest)) = headerPattern rest :=
      ih (fun q hq => hcl q (List.mem_cons_of_mem p hq))
    rw [ih2]
    unfold headerPattern
    simp

/-- C9 witness: the well-formed two-packet row
`[5, <head>, 6, 7, <pkt>, 8, <head>, <pkt>]` gets the pattern
`[1, 1, 0, 0, 0, 1, 1, 0]`. -/
theorem C9_witness :
    (∀ p ∈ ([([5], [6, 7]), ([8], [])] : List (List Int × List Int)),
      (∀ t ∈ p.1, t ≠ HEAD_ID ∧ t ≠ PKT_ID) ∧ (∀ t ∈ p.2, t ≠ HEAD_ID ∧ t ≠ PKT_ID)) ∧
    head_payload_row (packetsRow [([5], [6, 7]), ([8], [])])
      = headerPattern [([5], [6, 7]), ([8], [])] ∧
    head_payload_row (packetsRow [([5], [6, 7]), ([8], [])])
      = [1, 1, 0, 0, 0, 1, 1, 0] :=
  ⟨by decide, C9_amended [([5], [6, 7]), ([8], [])] (by decide), by decide⟩

/-! ### Batch Assembler (`DataCollatorForPretrain.__call__`) -/

/-- One stacked training example as stored by the offline preprocessor. -/
structure PtExample where
  input_ids : List Int
  pop_order : List Int
  nml_labels : List Int
deriving DecidableEq

/-- The tensor dictionary returned by the Batch Assembler (the fields the
claims are about). -/
structure PtBatch where
  input_ids : List (List Int)
  labels : List (List Int)
  pop_order : List (List Int)
  nml_labels : List (List Int)
  pop_mask : List (List Bool)
  nml_mask : List (List Bool)
  pkt_seg_ind : List (List Nat)
  head_payload_seg_ind : List (List Nat)
deriving DecidableEq

/-- Per-row noise-mask construction of `__call__`:
`real_len = np.sum(input_ids != -100)`, attendable flags zeroed at
`<pkt>`/`<head>`, the Segment-Aware Masker on the first `real_len` flags, and
an `np.pad` with `False` back to `optimal_len` (whose width must not be
negative, hence the guard). -/
def row_noise_mask (q : ℚ) (mean minlen optimal_len : Nat) (row : List Int)
    (rand : List (List Bool × List Bool)) : Option (List Bool) :=
  let real_len := row.countP (fun t => t ≠ -100)
  let attn := row.map (fun t => if t = PKT_ID ∨ t = HEAD_ID then 0 else 1)
  if real_len ≤ optimal_len then
    (segment_spans_random_mask q mean minlen (attn.take real_len) rand).map
      (fun mk => mk ++ List.replicate (optimal_len - real_len) false)
  else none

/-- Row of `pop_mask`: `<pkt>` positions of the corrupted input in rows with
at least one valid `pop_order` entry. -/
def pop_mask_row (row pop_order : List Int) : List Bool :=
  row.map (fun t => decide (t = PKT_ID ∧ pop_order.countP (fun v => v ≠ -100) ≠ 0))

/-- Row of `nml_mask`: `<head>` positions of the corrupted input in rows with
at least one valid `nml_labels` entry. -/
def nml_mask_row (row nml_labels : List Int) : List Bool :=
  row.map (fun t => decide (t = HEAD_ID ∧ nml_labels.countP (fun v => v ≠ -100) ≠ 0))

/-- Row of `pkt_seg_ind`: exclusive running count of `<pkt>` tokens
(`np.cumsum(pkt_token_mask) - pkt_token_mask`). -/
def pkt_seg_row (row : List Int) : List Nat :=
  let pkt_token_mask := row.map (fun t => if t = PKT_ID then 1 else 0)
  List.zipWith (fun c m => c - m) (cumsum pkt_token_mask) pkt_token_mask

/-- The batch-global NML consistency assertion of `__call__`:
`sum(sum(nml_mask)) == int(sum(batch['nml_labels'][batch['nml_labels']!=-100]>=0)/4)`
— the count of set mask bits must equal the FLOOR QUARTER of the number of
label entries that are both `≠ -100` and `≥ 0`. -/
def nml_assert_holds (nml_masks : List (List Bool)) (nml_labels : List (List Int)) : Bool :=
  (nml_masks.map (fun r => r.count true)).sum
    == ((nml_labels.map (fun r => r.countP (fun v => decide (v ≠ -100) && decide (0 ≤ v)))).sum) / 4

/-- `DataCollatorForPretrain.__call__` on a stacked batch of examples.
`rand i` is the stream of random shuffles drawn while masking row `i`.
`none` models every raising path: a failed noise-mask draw, a compactor
overflow, the NML assertion, and the final shape checks. -/
def collator_call (q : ℚ) (mean minlen max_length optimal_len max_labels_length : Nat)
    (examples : List PtExample) (rand : Nat → List (List Bool × List Bool)) :
    Option PtBatch := do
  let spans_noise_masks ← examples.enum.mapM
    (fun p => row_noise_mask q mean minlen optimal_len p.2.input_ids (rand p.1))
  let input_sentinel := spans_noise_masks.map (fun mk => create_sentinel_ids (maskToInts mk))
  let label_sentinel := spans_noise_masks.map
    (fun mk => create_sentinel_ids (maskToInts (mk.map (fun b => !b))))
  let new_input_ids ← filter_input_ids (examples.map (·.input_ids)) input_sentinel
    max_length false
  let new_labels ← filter_input_ids (examples.map (·.input_ids)) label_sentinel
    max_labels_length true
  let pop_mask := List.zipWith (fun row ex => pop_mask_row row ex.pop_order)
    new_input_ids examples
  let nml_mask := List.zipWith (fun row ex => nml_mask_row row ex.nml_labels)
    new_input_ids examples
  if nml_assert_holds nml_mask (examples.map (·.nml_labels)) then
    let pkt_seg_ind := new_input_ids.map pkt_seg_row
    let head_payload_seg_ind := new_input_ids.map head_payload_row
    if new_input_ids.all (fun r => r.length == max_length) then
      if new_labels.all (fun r => r.length == max_labels_length) then
        some { input_ids := new_input_ids, labels := new_labels,
               pop_order := examples.map (·.pop_order),
               nml_labels := examples.map (·.nml_labels),
               pop_mask := pop_mask, nml_mask := nml_mask,
               pkt_seg_ind := pkt_seg_ind,
               head_payload_seg_ind := head_payload_seg_ind }
      else none
    else none
  else none

/-- C2 counterexample: a one-row batch whose `nml_labels` row has FIVE
entries different from `-100` (all nonnegative).  The assertion compares the
single set `nml_mask` bit against `int(5/4) = 1` and passes, the batch is
returned, yet `1 × 4 = 4 ≠ 5`: the validated equality is the floor-quarter
one, not the claimed exact `×4` equality. -/
theorem C2_counterexample :
    ((collator_call (1/2) 3 5 4 2 2
        [⟨[3, 5], [-100], [0, 0, 0, 0, 0, -100, -100, -100]⟩] (fun _ => [])).map
      (fun b => (4 * (b.nml_mask.map (fun r => r.count true)).sum,
        (b.nml_labels.map (fun r => r.countP (fun v => v ≠ -100))).sum)))
      = some (4, 5) ∧ (4 : Nat) ≠ 5 := by
  constructor
  · rfl
  · decide

/-- C2 (amended): the assembler validates
`sum(nml_mask) == ⌊count(nml_labels ≠ -100 and ≥ 0)/4⌋` and raises on
mismatch; consequently, on every batch it returns, IF every `nml_labels`
entry is `-100` or nonnegative and the number of non-`-100` entries is a
multiple of 4 (as holds for well-formed 4-labels-per-packet data), then the
number of `True` entries in `nml_mask` times 4 equals the number of
`nml_labels` entries different from `-100`. -/
theorem C2_amended (q : ℚ) (mean minlen max_length optimal_len max_labels_length : Nat)
    (examples : List PtExample) (rand : Nat → List (List Bool × List Bool))
    (b : PtBatch)
    (hres : collator_call q mean minlen max_length optimal_len max_labels_length
      examples rand = some b)
    (hnonneg : ∀ ex ∈ examples, ∀ v ∈ ex.nml_labels, v = -100 ∨ 0 ≤ v)
    (hdvd : 4 ∣ (examples.map (fun ex => ex.nml_labels.countP (fun v => v ≠ -100))).sum) :
    4 * ((b.nml_mask.map (fun r => r.count true)).sum)
      = (b.nml_labels.map (fun r => r.countP (fun v => v ≠ -100))).sum := by
  unfold collator_call at hres
  simp only [Option.bind_eq_bind, Option.bind_eq_some] at hres
  obtain ⟨masks, hmasks, hres⟩ := hres
  obtain ⟨ninp, hninp, hres⟩ := hres
  obtain ⟨nlab, hnlab, hres⟩ := hres
  split at hres
  case isFalse => exact Option.noConfusion hres
  case isTrue hassert =>
    split at hres
    case isFalse => exact Option.noConfusion hres
    case isTrue =>
      split at hres
      case isFalse => exact Option.noConfusion hres
      case isTrue =>
        injection hres with hres
        subst hres
        simp only []
        unfold nml_assert_holds at hassert
        rw [Nat.beq_eq_true_eq] at hassert
        have hcong : ((examples.map (·.nml_labels)).map
            (fun r => r.countP (fun v => decide (v ≠ -100) && decide (0 ≤ v)))).sum
            = ((examples.map (·.nml_labels)).map
                (fun r => r.countP (fun v => v ≠ -100))).sum := by
          congr 1
          rw [List.map_map, List.map_map]
          apply List.map_congr_left
          intro ex hex
          apply List.countP_congr
          intro v hv
          rcases hnonneg ex hex v hv with h | h
          · subst h
            simp
          · simp only [Bool.and_eq_true, decide_eq_true_eq]
            constructor
            · intro hvv
              exact hvv.1
            · intro hvv
              exact ⟨hvv, h⟩
        rw [hcong] at hassert
        have hsum : ((examples.map (·.nml_labels)).map
            (fun r => r.countP (fun v => v ≠ -100))).sum
            = (examples.map (fun ex => ex.nml_labels.countP (fun v => v ≠ -100))).sum := by
          rw [List.map_map]
          rfl
        rw [hsum] at hassert
        rw [hassert]
        rw [List.map_map]
        have hgoal : (List.map ((fun r => List.countP (fun v => decide (v ≠ -100)) r)
              ∘ fun x => x.nml_labels) examples).sum
            = (List.map (fun ex =>
                List.countP (fun v => decide (v ≠ -100)) ex.nml_labels) examples).sum := rfl
        rw [hgoal]
        obtain ⟨c, hc⟩ := hdvd
        omega

/-- C2 witness: the same shape of batch with FOUR valid label entries: the
assertion passes, the batch is returned, and the amended `×4` equality holds
(`1 × 4 = 4`). -/
theorem C2_witness :
    collator_call (1/2) 3 5 4 2 2
        [⟨[3, 5], [-100], [0, 0, 0, 0, -100, -100, -100, -100]⟩] (fun _ => [])
      = some ⟨[[3, 5, 1, 0]], [[1, -100]], [[-100]],
          [[0, 0, 0, 0, -100, -100, -100, -100]], [[false, false, false, false]],
          [[true, false, false, false]], [[0, 0, 0, 0]], [[1, 0, 0, 0]]⟩ ∧
    4 * (((⟨[[3, 5, 1, 0]], [[1, -100]], [[-100]],
          [[0, 0, 0, 0, -100, -100, -100, -100]], [[false, false, false, false]],
          [[true, false, false, false]], [[0, 0, 0, 0]], [[1, 0, 0, 0]]⟩ :
        PtBatch).nml_mask.map (fun r => r.count true)).sum)
      = ((⟨[[3, 5, 1, 0]], [[1, -100]], [[-100]],
          [[0, 0, 0, 0, -100, -100, -100, -100]], [[false, false, false, false]],
          [[true, false, false, false]], [[0, 0, 0, 0]], [[1, 0, 0, 0]]⟩ :
        PtBatch).nml_labels.map (fun r => r.countP (fun v => v ≠ -100))).sum := by
  have hres : collator_call (1/2) 3 5 4 2 2
      [⟨[3, 5], [-100], [0, 0, 0, 0, -100, -100, -100, -100]⟩] (fun _ => [])
      = some ⟨[[3, 5, 1, 0]], [[1, -100]], [[-100]],
          [[0, 0, 0, 0, -100, -100, -100, -100]], [[false, false, false, false]],
          [[true, false, false, false]], [[0, 0, 0, 0]], [[1, 0, 0, 0]]⟩ := by rfl
  refine ⟨hres, ?_⟩
  exact C2_amended (1/2) 3 5 4 2 2
    [⟨[3, 5], [-100], [0, 0, 0, 0, -100, -100, -100, -100]⟩] (fun _ => []) _ hres
    (by decide) (by decide)

/-! ### Flow Record Preprocessor (`pt_dataset.tokenize_pt_func`) -/

/-- Accumulator loop for `splitPackets`: `cur` holds the reversed run of
non-`<pkt>` tokens currently being read; each `<pkt>` closes the run. -/
def splitPacketsGo (cur : List Int) : List Int → List (List Int)
  | [] => if cur = [] then [] else [cur.reverse]
  | x :: xs =>
    if x = PKT_ID then
      if cur = [] then splitPacketsGo [] xs
      else cur.reverse :: splitPacketsGo [] xs
    else splitPacketsGo (x :: cur) xs

/-- `itertools.groupby(input_text, key=lambda k: k != PKT_ID)` keeping only
the groups whose key is true: the maximal runs of non-`<pkt>` tokens. -/
def splitPackets (l : List Int) : List (List Int) :=
  splitPacketsGo [] l

/-- The packet list of `tokenize_pt_func`: split at `<pkt>` boundaries, then
`packets.pop()` when the trailing group is the bare EOS token
(`packets[-1][0] == EOS_ID and len(packets[-1]) == 1`).  `none` models the
`IndexError` of `packets[-1]` on an empty list. -/
def packetsOf (input_text : List Int) : Option (List (List Int)) :=
  let packets := splitPackets input_text
  match packets.getLast? with
  | none => none
  | some last => some (if last = [EOS_ID] then packets.dropLast else packets)

/-- The per-packet deletion amount `np.ceil(int(delete_len * ratio[id_pkt]))`
where `ratio = len / total` (a nonnegative value in this code path):
`int()` truncates the product toward zero and `np.ceil` of an integer value
is the identity, so the amount is the TRUNCATION of `delete_len · len/total`
— not its ceiling.  For the nonnegative operands of this code path the exact
rational truncation is the integer division below.  (In real Python the
`np.ceil` result is additionally an `np.float64`, and using it as a
list-slice bound raises `TypeError`; see the C7 analysis.) -/
def trunc_amount (delete_len : Int) (len total : Nat) : Int :=
  (delete_len * len) / total

/-- Python's `lst[:-k]` for a nonnegative integer `k`: note `lst[:-0]` is
`lst[:0] = []`, not the whole list. -/
def pySliceToNeg {α : Type} (l : List α) (k : Nat) : List α :=
  if k = 0 then [] else l.take (l.length - k)

/-- `_trunc_sanity_check`: inspect the decoded text of the last kept token;
drop a dangling short fragment, or re-merge a continuation fragment
(`'#'`-prefixed subword) with its predecessor and drop both if the merge is a
short valid token.  The opaque tokenizer decode is modelled as a character
sequence per token id; `str.replace("#", "")` removes every `'#'`.  `none`
models the `IndexError` of `truncted_content[-2]` when the list has a single
element. -/
def trunc_sanity_check (decode : Int → List Char) (l : List Int) : Option (List Int) :=
  match l.getLast? with
  | none => some l
  | some last =>
    let s := decode last
    if ¬ s.contains '#' ∧ s.length < 4 then some l.dropLast
    else if s.contains '#' then
      match l.dropLast.getLast? with
      | none => none
      | some last2 =>
        let s2 := (decode last2) ++ (s.filter (fun c => c ≠ '#'))
        if ¬ s2.contains '#' ∧ s2.length < 4 then some l.dropLast.dropLast
        else some l
    else some l

/-- Split one packet at its `<head>` marker:
`header = pkt[:pkt.index(HEAD_ID)]`, `raw = pkt[pkt.index(HEAD_ID)+1:]`.
`none` models the `ValueError` of `.index` when no `<head>` is present. -/
def headerPayloadSplit (pkt : List Int) : Option (List Int × List Int) :=
  match pkt.findIdx? (fun t => t = HEAD_ID) with
  | none => none
  | some i => some (pkt.take i, pkt.drop (i + 1))

/-- The over-length branch of `tokenize_pt_func`: proportional truncation of
payload ends (or, when the payload cannot cover the deletion budget, of
header ends with the payload emptied), followed by the subword sanity check,
and reconstruction of each packet as `header ++ [<head>] ++ raw`. -/
def truncate_packets (decode : Int → List Char) (optim_len : Nat)
    (packets : List (List Int)) (current_len : Nat) : Option (List (List Int)) := do
  let packet_num := packets.length
  let delete_len : Int := (current_len : Int) - ((optim_len : Int) - packet_num - 1)
  let hp ← packets.mapM headerPayloadSplit
  let total_payload : Nat := (hp.map (fun p => p.2.length)).sum
  let total_header : Nat := (hp.map (fun p => p.1.length)).sum
  if delete_len ≤ (total_payload : Int) then
    hp.mapM (fun p => do
      let amount := trunc_amount delete_len p.2.length total_payload
      let newraw ← trunc_sanity_check decode (pySliceToNeg p.2 amount.toNat)
      pure (p.1 ++ [HEAD_ID] ++ newraw))
  else
    let delete_len2 := delete_len - total_payload
    hp.mapM (fun p => do
      let amount := trunc_amount delete_len2 p.1.length total_header
      let newhdr ← trunc_sanity_check decode (pySliceToNeg p.1 amount.toNat)
      pure (newhdr ++ [HEAD_ID] ++ ([] : List Int)))

/-- The per-example body of `pt_dataset.tokenize_pt_func`.
`decode` is the opaque tokenizer decode used by the sanity check;
`selected` says whether this example index landed in `pop_index`
(the `np.random.choice` draw); `first_cand` is the `np.random.randint` draw.
Returns the padded `input_ids` row and the `pop_order` row.  `none` models
every raising path, including the final
`assert len(tknzed_input[id_input]) <= optim_len - 1`. -/
def tokenize_one (decode : Int → List Char) (optim_len pkt_per_flow pop_switch_gap : Nat)
    (selected : Bool) (first_cand : Nat) (input_text : List Int) :
    Option (List Int × List Int) := do
  let current_len := input_text.length
  let packets0 ← packetsOf input_text
  let packet_num := packets0.length
  let packets ← (if optim_len < current_len then
      truncate_packets decode optim_len packets0 current_len
    else pure packets0)
  let popRes : Option (List (List Int) × List Int) :=
    if selected then
      if packet_num ≤ pkt_per_flow then
        let packet_order := List.range packet_num
        let packet_order_permute :=
          if packet_num ≤ pop_switch_gap then packet_order
          else packet_order.map (fun j =>
            if j = first_cand then first_cand + pop_switch_gap
            else if j = first_cand + pop_switch_gap then first_cand
            else j)
        some (packet_order_permute.map (fun j => packets.getD j []),
          packet_order_permute.map (fun v => (v : Int)) ++
            List.replicate (pkt_per_flow - packet_num) (-100))
      else none
    else
      some (packets, List.replicate pkt_per_flow (-100))
  let pr ← popRes
  let flat := (pr.1.map (fun p => p ++ [PKT_ID])).flatten
  if flat.length ≤ optim_len - 1 then
    pure (flat ++ List.replicate (optim_len - flat.length) (-100), pr.2)
  else none

/-- The `nml_labels` row of `tokenize_pt_func`: the flattened per-packet
label groups (the parsed `network_model_layer` string), right-padded with
`-100` to `pkt_per_flow * nml_label_gap` entries.  It is computed BEFORE the
per-example loop and no statement of the loop modifies it. -/
def nml_row (pkt_per_flow nml_label_gap : Nat) (actual : List Int) : List Int :=
  actual ++ List.replicate (pkt_per_flow * nml_label_gap - actual.length) (-100)

theorem mapM_option_length {α β : Type} (f : α → Option β) :
    ∀ (l : List α) (out : List β), l.mapM f = some out → out.length = l.length := by
  intro l
  induction l with
  | nil =>
    intro out h
    rw [List.mapM_nil] at h
    injection h with h
    rw [← h]
    rfl
  | cons x xs ih =>
    intro out h
    rw [List.mapM_cons] at h
    simp only [Option.bind_eq_bind, Option.bind_eq_some, Option.pure_def,
      Option.some.injEq] at h
    obtain ⟨y, hy, ys, hys, hout⟩ := h
    rw [← hout]
    simp [ih ys hys]

theorem map_getD_range {α : Type} (d : α) : ∀ (l : List α),
    (List.range l.length).map (fun j => l.getD j d) = l := by
  intro l
  induction l with
  | nil => simp
  | cons x xs ih =>
    rw [List.length_cons, List.range_succ_eq_map, List.map_cons, List.map_map]
    have hcongr : ∀ j ∈ List.range xs.length,
        ((fun j => (x :: xs).getD j d) ∘ Nat.succ) j = xs.getD j d := fun j _ => rfl
    rw [List.map_congr_left hcongr, ih]
    rfl

theorem truncate_packets_length (decode : Int → List Char) (o : Nat)
    (ps : List (List Int)) (cl : Nat) (out : List (List Int))
    (h : truncate_packets decode o ps cl = some out) : out.length = ps.length := by
  unfold truncate_packets at h
  simp only [Option.bind_eq_bind, Option.bind_eq_some] at h
  obtain ⟨hp, hhp, h⟩ := h
  have hlen1 := mapM_option_length headerPayloadSplit ps hp hhp
  split at h
  · exact (mapM_option_length _ hp out h).trans hlen1
  · exact (mapM_option_length _ hp out h).trans hlen1

/-- C6 counterexample: a selected flow with 2 packets and
`pop_switch_gap = 3 ≥ 2`: the order is unchanged, but the `pop_order` row is
written with the IDENTITY permutation `[0, 1, -100, -100]` — the
`pop_order[id_input, :] = packet_order_permute` assignment is outside the
`if packet_num <= pop_switch_gap` branch — so the row is NOT left entirely
`-100`-filled. -/
theorem C6_counterexample :
    packetsOf [5, 3, 6, 4, 7, 3, 8, 4, 1] = some [[5, 3, 6], [7, 3, 8]] ∧
    (2 : Nat) ≤ 3 ∧
    tokenize_one (fun _ => ['a', 'b', 'c', 'd']) 20 4 3 true 0 [5, 3, 6, 4, 7, 3, 8, 4, 1]
      = some ([5, 3, 6, 4, 7, 3, 8, 4] ++ List.replicate 12 (-100),
          [0, 1, -100, -100]) ∧
    ([0, 1, -100, -100] : List Int) ≠ List.replicate 4 (-100) := by
  refine ⟨by decide, by decide, by decide, by decide⟩

/-- C6 (amended): for a flow selected for POP with
`packet_count ≤ pop_switch_gap` (and `packet_count ≤ pkt_per_flow`), the
output row is exactly the one produced for an unselected flow — packet order
unchanged — while the `pop_order` row records the identity permutation
`0..packet_count-1` right-padded with `-100` (not an all-`-100` row). -/
theorem C6_amended (decode : Int → List Char)
    (optim_len pkt_per_flow pop_switch_gap first_cand : Nat)
    (input_text : List Int) (packets0 : List (List Int))
    (hpk : packetsOf input_text = some packets0)
    (hle : packets0.length ≤ pop_switch_gap)
    (hppf : packets0.length ≤ pkt_per_flow) :
    tokenize_one decode optim_len pkt_per_flow pop_switch_gap true first_cand input_text
      = (tokenize_one decode optim_len pkt_per_flow pop_switch_gap false first_cand
          input_text).map
        (fun r => (r.1, (List.range packets0.length).map (fun v => (v : Int)) ++
          List.replicate (pkt_per_flow - packets0.length) (-100))) := by
  unfold tokenize_one
  rw [hpk]
  simp only [Option.bind_eq_bind, Option.some_bind]
  cases htr : (if optim_len < input_text.length then
      truncate_packets decode optim_len packets0 input_text.length
    else pure packets0) with
  | none => simp
  | some packets =>
    have hlenp : packets.length = packets0.length := by
      by_cases hc : optim_len < input_text.length
      · rw [if_pos hc] at htr
        exact truncate_packets_length _ _ _ _ _ htr
      · rw [if_neg hc] at htr
        injection htr with h2
        rw [← h2]
    simp only [Option.some_bind]
    rw [if_pos trivial]
    rw [if_neg (show ¬ (false = true) by simp)]
    rw [if_pos hppf]
    rw [if_pos hle]
    have hgetd : (List.range packets0.length).map (fun j => packets.getD j []) = packets := by
      rw [← hlenp]
      exact map_getD_range [] packets
    rw [hgetd]
    simp only [Option.some_bind]
    by_cases hflat : ((packets.map (fun p => p ++ [PKT_ID])).flatten).length ≤ optim_len - 1
    · rw [if_pos hflat, if_pos hflat]
      simp
    · rw [if_neg hflat, if_neg hflat]
      simp

/-- C6 witness: the amended statement at the concrete 2-packet flow. -/
theorem C6_witness :
    packetsOf [5, 3, 6, 4, 7, 3, 8, 4, 1] = some [[5, 3, 6], [7, 3, 8]] ∧
    tokenize_one (fun _ => ['a', 'b', 'c', 'd']) 20 4 3 true 0 [5, 3, 6, 4, 7, 3, 8, 4, 1]
      = (tokenize_one (fun _ => ['a', 'b', 'c', 'd']) 20 4 3 false 0 [5, 3, 6, 4, 7, 3, 8, 4, 1]).map
        (fun r => (r.1, (List.range 2).map (fun v => (v : Int)) ++
          List.replicate 2 (-100))) := by
  constructor
  · decide
  · exact C6_amended (fun _ => ['a', 'b', 'c', 'd']) 20 4 3 0 [5, 3, 6, 4, 7, 3, 8, 4, 1]
      [[5, 3, 6], [7, 3, 8]] (by decide) (by decide) (by decide)

/-- C1 evaluation at the failing input: a selected 2-packet flow with
`pop_switch_gap = 1`, swap start `s = 0`.  The packets are swapped and
`pop_order = [1, 0, -100, -100]` as claimed, but `nml_labels` is computed
from the label string alone — in the source it is fully built at lines
178-181 BEFORE the per-example loop, and no statement in the loop reads the
permutation — so the two 4-label groups stay in the ORIGINAL order
`[0,0,0,0,1,1,1,1]` instead of being swapped to `[1,1,1,1,0,0,0,0]`: label
group 0 now describes the packet sitting at position 1. -/
theorem C1_eval :
    tokenize_one (fun _ => ['a', 'b', 'c', 'd']) 20 4 1 true 0
        [5, 3, 6, 4, 7, 3, 8, 4, 1]
      = some ([7, 3, 8, 4, 5, 3, 6, 4] ++ List.replicate 12 (-100),
          [1, 0, -100, -100]) ∧
    nml_row 4 4 [0, 0, 0, 0, 1, 1, 1, 1]
      = [0, 0, 0, 0, 1, 1, 1, 1] ++ List.replicate 8 (-100) ∧
    nml_row 4 4 [0, 0, 0, 0, 1, 1, 1, 1]
      ≠ [1, 1, 1, 1, 0, 0, 0, 0] ++ List.replicate 8 (-100) := by
  refine ⟨by decide, by decide, by decide⟩

/-- C7 evaluation at the failing input: a 17-token, 2-packet flow with
`optim_len = 12` (deletion budget 8, payload lengths 4 and 6).  The code's
`np.ceil(int(delete_len * ratio))` truncates: packet 0 loses
`int(8·0.4) = 3` payload tokens where ceiling rounding would delete
`⌈8·0.4⌉ = 4`, so the retained row keeps a token the specified
ceiling-rounded truncation would have removed.  (In real Python the branch
does not even complete: `np.ceil` returns an `np.float64` which raises
`TypeError` when used as the list-slice bound `pkt['raw'][:-k]`.) -/
theorem C7_eval :
    tokenize_one (fun _ => ['a', 'b', 'c', 'd']) 12 4 3 false 0
        [9, 3, 11, 11, 11, 11, 4, 10, 3, 12, 12, 12, 12, 12, 12, 4, 1]
      = some ([9, 3, 11, 4, 10, 3, 12, 12, 4] ++ List.replicate 3 (-100),
          List.replicate 4 (-100)) ∧
    trunc_amount 8 4 10 = 3 ∧
    ⌈(8 : ℚ) * ((4 : ℚ) / (10 : ℚ))⌉ = 4 := by
  refine ⟨by decide, by decide, ?_⟩
  have h : ((8 : ℚ) * ((4 : ℚ) / (10 : ℚ))) = 16/5 := by norm_num
  rw [h, Int.ceil_eq_iff]
  constructor <;> norm_num
